import Mathlib

/-!
Shallow embedding of the BSPA dashboard extraction core.

Source files embedded:
- src/app/utils/text-norm.ts   (normalizeText, tokenSetRatio)
- src/app/utils/excel-extractor.ts (ExcelExtractor: isLikelyLabel, isLikelyValue,
  generateId, calculateMatchScore, parseMatrixFromSheet and its helpers)

Modelling conventions:
- JS strings are `List Char`.  JS `trim`/regex `\s` are modelled by the
  whitespace characters space, tab, newline, carriage return.
  `toLowerCase` is modelled on the ASCII range (all characters the source's
  regexes and keyword sets can interact with are ASCII).
- Spreadsheet cells are `Cell`: absent (undefined/null), boolean, number or
  text.  Numbers are modelled as integers (their JS decimal rendering is the
  ordinary decimal rendering); floating point formatting is out of scope.
- `Math.floor(Math.random() * 1000)` is modelled by an explicit stream
  `rng : Nat -> Nat` of random draws; the i-th call yields `rng i % 1000`.
- Scores are rationals; JS number arithmetic on these small fractions is exact.
-/

namespace BSPA

abbrev Str := List Char

/-- Whitespace characters used to model JS `trim()` and the regex class `\s`. -/
def isWSChar (c : Char) : Bool :=
  c = ' ' || c = '\t' || c = '\n' || c = '\r'

/-- Lower-case ASCII letter. -/
def isLowerAlpha (c : Char) : Bool := 'a' ≤ c && c ≤ 'z'

/-- ASCII letter (either case), the regex class `[a-zA-Z]`. -/
def isAsciiAlpha (c : Char) : Bool := ('a' ≤ c && c ≤ 'z') || ('A' ≤ c && c ≤ 'Z')

/-- ASCII digit, the regex class `[0-9]`. -/
def isDigitChar (c : Char) : Bool := '0' ≤ c && c ≤ '9'

/-- The regex class `[a-z0-9]` (after lower-casing). -/
def isLowerAlnum (c : Char) : Bool := isLowerAlpha c || isDigitChar c

/-- Regex `\b` word characters `[A-Za-z0-9_]`. -/
def isWordChar (c : Char) : Bool := isAsciiAlpha c || isDigitChar c || c = '_'

/-- ASCII lower-casing, modelling JS `toLowerCase` on the relevant range. -/
def toLowerChar (c : Char) : Char :=
  if 'A' ≤ c && c ≤ 'Z' then Char.ofNat (c.toNat + 32) else c

/-- `dropWhile` from the right; helper for `trim`. -/
def dropTrailWS (s : Str) : Str := (s.reverse.dropWhile isWSChar).reverse

/-- JS `String.prototype.trim`. -/
def trimStr (s : Str) : Str := dropTrailWS (s.dropWhile isWSChar)

/-- JS `split(' ')` (split on the literal single-space separator;
`"".split(' ') = [""]`). -/
def splitOnSpace : Str → List Str
  | [] => [[]]
  | c :: rest =>
    if c = ' ' then [] :: splitOnSpace rest
    else
      match splitOnSpace rest with
      | [] => [[c]]
      | t :: ts => (c :: t) :: ts

/-- JS `Array.prototype.join(' ')`. -/
def joinSpace (l : List Str) : Str := List.intercalate [' '] l

/-- JS `String.prototype.includes`: `strIncludes hay needle` is true iff
`needle` occurs contiguously in `hay`. -/
def strIncludes (hay needle : Str) : Bool :=
  match hay with
  | [] => needle.isEmpty
  | _ :: t => needle.isPrefixOf hay || strIncludes t needle

/-- JS `new Set(xs)` insertion: keep elements not seen before. -/
def dedupFirstGo (seen : List Str) : List Str → List Str
  | [] => []
  | a :: l =>
    if seen.contains a then dedupFirstGo seen l
    else a :: dedupFirstGo (a :: seen) l

/-- JS `Array.from(new Set(xs))`: deduplicate keeping first occurrences. -/
def dedupFirst (l : List Str) : List Str := dedupFirstGo [] l

/-! ### text-norm.ts: regex building blocks -/

/-- Leading decoration characters of `LEAD_DECOR_RE`:
`/^[•\-\–\—\•\*]+\s*/` (bullet, hyphen, en dash, em dash, bullet, star). -/
def isDecorChar (c : Char) : Bool :=
  c = '•' || c = '-' || c = '–' || c = '—' || c = '*'

/-- text-norm.ts line 51: `s.replace(LEAD_DECOR_RE, '')` — if the string starts
with a decoration character, drop the leading decoration run and the
whitespace run after it. -/
def stripLeadDecor : Str → Str
  | [] => []
  | c :: rest =>
    if isDecorChar c then (rest.dropWhile isDecorChar).dropWhile isWSChar
    else c :: rest

/-- Opening bracket of `UNITS_BRACKETS_RE`. -/
def isOpenBracket (c : Char) : Bool := c = '[' || c = '(' || c = '{'

/-- Closing bracket of `UNITS_BRACKETS_RE`. -/
def isCloseBracket (c : Char) : Bool := c = ']' || c = ')' || c = '}'

/-- The inner character class of `UNITS_BRACKETS_RE`:
`[-a-zA-Z0-9/%°\s]` (no brackets). -/
def isUnitsInner (c : Char) : Bool :=
  c = '-' || isAsciiAlpha c || isDigitChar c || c = '/' || c = '%' || c = '°' ||
    isWSChar c

/-- Helper: dropping a prefix never lengthens a list. -/
theorem length_dropWhile_le (p : Char → Bool) (l : Str) :
    (l.dropWhile p).length ≤ l.length :=
  (List.dropWhile_suffix p).length_le

/-- text-norm.ts line 58: global replacement of
`UNITS_BRACKETS_RE = /[\[\(\{]\s*[-a-zA-Z0-9/%°\s]+\s*[\]\)\}]/g` by `' '`.
Since `\s` is contained in the inner class, a match is exactly an opening
bracket, a non-empty run of inner-class characters (which excludes brackets),
and a closing bracket; the regex scans left to right and resumes after each
replacement. -/
def stripUnitsBracketsGo : ℕ → Str → Str
  | 0, s => s
  | _ + 1, [] => []
  | fuel + 1, c :: rest =>
    if isOpenBracket c then
      match rest.dropWhile isUnitsInner with
      | d :: rest2 =>
        if (rest.takeWhile isUnitsInner).isEmpty = false && isCloseBracket d then
          ' ' :: stripUnitsBracketsGo fuel rest2
        else c :: stripUnitsBracketsGo fuel rest
      | [] => c :: stripUnitsBracketsGo fuel rest
    else c :: stripUnitsBracketsGo fuel rest

/-- Entry point: every scan step consumes at least one character, so a fuel of
`s.length` never runs out. -/
def stripUnitsBrackets (s : Str) : Str := stripUnitsBracketsGo s.length s

/-- The character class kept by `KEEP_ALNUM_RE = /[^a-z0-9\s]+/g`
(everything else is replaced by `' '`). -/
def isKeepChar (c : Char) : Bool := isLowerAlnum c || isWSChar c

/-- text-norm.ts line 61: replace each maximal run of non-`[a-z0-9\s]`
characters by a single space (the run collapses onto its last character). -/
def stripNonAlnum : Str → Str
  | [] => []
  | [c] => if isKeepChar c then [c] else [' ']
  | c :: d :: rest =>
    if isKeepChar c then c :: stripNonAlnum (d :: rest)
    else if isKeepChar d then ' ' :: stripNonAlnum (d :: rest)
    else stripNonAlnum (d :: rest)

/-- text-norm.ts line 64: replace each maximal whitespace run (`WS_RE = /\s+/g`)
by a single space (the run collapses onto its last character). -/
def collapseWS : Str → Str
  | [] => []
  | [c] => if isWSChar c then [' '] else [c]
  | c :: d :: rest =>
    if isWSChar c then
      if isWSChar d then collapseWS (d :: rest)
      else ' ' :: collapseWS (d :: rest)
    else c :: collapseWS (d :: rest)

/-! ### text-norm.ts: REPLACEMENTS (whole-word synonym substitutions)

Each entry of `REPLACEMENTS` is a case-insensitive global regex of the shape
`\blit₀[g]*lit₁[g]*...\b` where the gap `[g]*` is `\s*` (for `circuit\s*1`,
`circuit\s*2`) or `[-\s]*` (for `time[-\s]*to[-\s]*lock`, `aeb[-\s]*vru`);
single-word rules have no gap.  Since every literal starts and ends with a
word character and contains no gap characters, greedy matching of each gap is
exact and a match is: a word boundary, the literals separated by runs of gap
characters, and a word boundary. -/

structure SynRule where
  /-- first character of the first literal (a rule is never empty) -/
  head : Char
  /-- remaining characters of the first literal -/
  headRest : Str
  /-- subsequent literals, each preceded by a gap run -/
  tailParts : List Str
  /-- gap class: `[-\s]` when true, `\s` when false -/
  dashGap : Bool
  /-- replacement text -/
  repl : Str

/-- Characters the gap `\s*` or `[-\s]*` may consume. -/
def isGapChar (dash : Bool) (c : Char) : Bool := isWSChar c || (dash && c = '-')

/-- Match a literal (case-insensitively) as a prefix, returning the remainder. -/
def matchLit : Str → Str → Option Str
  | [], s => some s
  | _ :: _, [] => none
  | p :: ps, c :: s => if toLowerChar c = p then matchLit ps s else none

/-- Match the remaining literals of a rule, each preceded by a greedy gap run. -/
def matchParts (dash : Bool) : List Str → Str → Option Str
  | [], s => some s
  | p :: ps, s =>
    match matchLit p (s.dropWhile (isGapChar dash)) with
    | none => none
    | some s2 => matchParts dash ps s2

/-- Match a whole rule at the head of `s` (the leading word boundary is the
caller's responsibility), including the trailing word boundary `\b`. -/
def matchRule (r : SynRule) : Str → Option Str
  | [] => none
  | c :: s =>
    if toLowerChar c = r.head then
      match matchLit r.headRest s with
      | none => none
      | some s1 =>
        match matchParts r.dashGap r.tailParts s1 with
        | none => none
        | some s2 =>
          match s2.head? with
          | none => some s2
          | some d => if isWordChar d then none else some s2
    else none

theorem matchLit_length {p s t : Str} (h : matchLit p s = some t) :
    t.length ≤ s.length := by
  induction p generalizing s t with
  | nil =>
    simp only [matchLit, Option.some.injEq] at h
    simp [← h]
  | cons a ps ih =>
    cases s with
    | nil => simp [matchLit] at h
    | cons c cs =>
      simp only [matchLit] at h
      split at h
      · exact Nat.le_trans (ih h) (by simp)
      · exact absurd h (by simp)

theorem matchParts_length {dash : Bool} {ps : List Str} {s t : Str}
    (h : matchParts dash ps s = some t) : t.length ≤ s.length := by
  induction ps generalizing s t with
  | nil => simp only [matchParts, Option.some.injEq] at h; simp [← h]
  | cons p ps ih =>
    simp only [matchParts] at h
    split at h
    · exact absurd h (by simp)
    · next s2 heq =>
      exact Nat.le_trans (ih h)
        (Nat.le_trans (matchLit_length heq) (length_dropWhile_le _ _))

theorem matchRule_length {r : SynRule} {s t : Str} (h : matchRule r s = some t) :
    t.length < s.length := by
  cases s with
  | nil => simp [matchRule] at h
  | cons c cs =>
    simp only [matchRule] at h
    split at h
    · split at h
      · exact absurd h (by simp)
      · next s1 heq1 =>
        split at h
        · exact absurd h (by simp)
        · next s2 heq2 =>
          have h1 : s2.length ≤ cs.length :=
            Nat.le_trans (matchParts_length heq2) (matchLit_length heq1)
          have ht : t = s2 := by
            split at h
            · simpa using h.symm
            · split at h
              · exact absurd h (by simp)
              · simpa using h.symm
          subst ht
          simp only [List.length_cons]
          omega
    · exact absurd h (by simp)

/-- One global pass of a rule over the string, as JS `String.replace` with a
global regex: scan left to right, tracking whether the previous character of
the original string is a word character (for the leading `\b`); on a match,
emit the replacement and resume after the matched text.  Every step consumes
at least one character (`matchRule_length`), so a fuel of `s.length` never
runs out. -/
def applyRuleGo (r : SynRule) : ℕ → Bool → Str → Str
  | 0, _, s => s
  | _ + 1, _, [] => []
  | fuel + 1, prevWord, c :: s =>
    if prevWord then c :: applyRuleGo r fuel (isWordChar c) s
    else
      match matchRule r (c :: s) with
      | some rem => r.repl ++ applyRuleGo r fuel true rem
      | none => c :: applyRuleGo r fuel (isWordChar c) s

/-- `s.replace(pat, repl)` for one `REPLACEMENTS` rule. -/
def applyRule (r : SynRule) (s : Str) : Str := applyRuleGo r s.length false s

/-- Build a single-word rule. -/
def mkRule1 (w repl : String) : SynRule :=
  match w.toList with
  | c :: cs => ⟨c, cs, [], false, repl.toList⟩
  | [] => ⟨'?', [], [], false, repl.toList⟩

/-- Build a multi-literal rule. -/
def mkRuleN (w : String) (ws : List String) (dash : Bool) (repl : String) :
    SynRule :=
  match w.toList with
  | c :: cs => ⟨c, cs, ws.map String.toList, dash, repl.toList⟩
  | [] => ⟨'?', [], ws.map String.toList, dash, repl.toList⟩

/-- text-norm.ts lines 7-26: the ordered `REPLACEMENTS` list. -/
def REPLACEMENTS : List SynRule := [
  mkRule1 "inner" "in",
  mkRule1 "outer" "out",
  mkRule1 "dia" "diameter",
  mkRule1 "diam" "diameter",
  mkRule1 "diameter" "diameter",
  mkRule1 "length" "len",
  mkRule1 "height" "hgt",
  mkRule1 "width" "wdt",
  mkRule1 "front" "fr",
  mkRule1 "rear" "rr",
  mkRule1 "left" "l",
  mkRule1 "right" "r",
  mkRuleN "circuit" ["1"] false "c1",
  mkRuleN "circuit" ["2"] false "c2",
  mkRuleN "time" ["to", "lock"] true "ttl",
  mkRuleN "aeb" ["vru"] true "ttl",
  mkRule1 "voltage" "u",
  mkRule1 "supply" "sup"]

/-- text-norm.ts lines 69-71: apply the replacement rules in order. -/
def applyReplacements (s : Str) : Str :=
  REPLACEMENTS.foldl (fun acc r => applyRule r acc) s

/-- text-norm.ts lines 34-38: the `STOPWORDS` set. -/
def STOPWORDS : List Str :=
  (["the", "a", "an", "of", "for", "to", "in", "at", "on", "and", "or",
    "with", "without", "from", "by", "as", "is", "are", "be", "been",
    "being", "please", "take", "care", "check", "parameter"]).map String.toList

/-- The two normalization strengths of `normalizeText`. -/
inductive Mode | basic | strong
deriving DecidableEq, Repr

/-- text-norm.ts lines 45-80: `normalizeText`.  Null/undefined input is the
empty string; other non-string input is stringified by the caller model. -/
def normalizeText (input : Str) (mode : Mode) : Str :=
  let s0 := trimStr input
  if s0.isEmpty then []
  else
    let s1 := stripLeadDecor s0
    let s2 := s1.map toLowerChar
    let s3 := s2.map (fun c => if c = '/' || c = '-' || c = '_' then ' ' else c)
    let s4 := stripUnitsBrackets s3
    let s5 := stripNonAlnum s4
    let s6 := collapseWS s5 |> trimStr
    if mode = Mode.basic then s6
    else
      let s7 := applyReplacements s6
      let tokens := (splitOnSpace s7).filter
        (fun t => !(STOPWORDS.contains t) && !(t.isEmpty))
      joinSpace tokens

/-- text-norm.ts lines 86-121: `tokenSetRatio`.  JS `new Set(arr)` is
`dedupFirst`; its `size` is the deduplicated length; `[...t1].filter(x =>
t2.has(x))` is a filter over the deduplicated list (already duplicate-free,
so the surrounding `new Set(...)` does not change the size). -/
def tokenSetRatio (str1 str2 : Str) : ℚ :=
  let s1 := normalizeText str1 Mode.strong
  let s2 := normalizeText str2 Mode.strong
  if s1.isEmpty || s2.isEmpty then 0
  else
    let t1 := dedupFirst (splitOnSpace s1)
    let t2 := dedupFirst (splitOnSpace s2)
    let intersection := t1.filter (fun x => t2.contains x)
    let intersectionCount : ℚ := intersection.length
    let score1 := intersectionCount / (t1.length : ℚ)
    let score2 := intersectionCount / (t2.length : ℚ)
    ((score1 + score2) / 2) * 100

/-! ### excel-extractor.ts: cells and grids -/

/-- A spreadsheet cell: absent (`undefined`/`null`), boolean, number or text.
Numbers are modelled as integers (see file header). -/
inductive Cell
  | undef
  | bool (x : Bool)
  | num (x : ℤ)
  | str (t : Str)
deriving DecidableEq, Repr

/-- A raw sheet: jagged 2D array of cells (`rawData`). -/
abbrev Grid := List (List Cell)

/-- Decimal rendering of an integer, as JS `String(n)` for integers. -/
def intToStr (n : ℤ) : Str :=
  if n < 0 then '-' :: Nat.toDigits 10 (-n).toNat else Nat.toDigits 10 n.toNat

/-- JS `String(v)` on a defined cell value (never applied to `undefined` or
`null` by the embedded code paths). -/
def strRepr : Cell → Str
  | Cell.undef => []
  | Cell.bool true => "true".toList
  | Cell.bool false => "false".toList
  | Cell.num n => intToStr n
  | Cell.str t => t

/-- JS truthiness of a cell value (`!v` is `¬ truthy v`). -/
def truthy : Cell → Bool
  | Cell.undef => false
  | Cell.bool x => x
  | Cell.num n => n ≠ 0
  | Cell.str t => ¬ t.isEmpty

/-- `v !== undefined && v !== null && String(v).trim() !== ''`. -/
def nonEmptyCell (v : Cell) : Bool :=
  v ≠ Cell.undef && (trimStr (strRepr v)).isEmpty = false

/-- `rawData[r]`, with `rawData[r] || []` semantics for out-of-range rows. -/
def getRow (g : Grid) (r : ℕ) : List Cell := g.getD r []

/-- `row[c]` (out-of-range access yields `undefined`). -/
def getCell (row : List Cell) (c : ℕ) : Cell := row.getD c Cell.undef

/-! ### excel-extractor.ts: constants (lines 28-42) -/

def MIN_MATCH_SCORE : ℚ := 88
def MAX_LABEL_CHARS : ℕ := 80
def MAX_LABEL_TOKENS : ℕ := 10
def VARIANT_HEADER_MATCH : ℚ := 85
def MIN_VARIANTS_FOR_ANCHOR : ℕ := 5

def GARBAGE_LABELS : List Str :=
  (["parameter", "parameters", "unit", "units", "comment", "comments",
    "check", "status", "project", "customer", "description", "variant",
    "value", "werte", "wert"]).map String.toList

def PARAM_TOKENS : List Str :=
  (["parametercheck", "parameter check", "parameter", "param"]).map String.toList
def COMMENT_TOKENS : List Str :=
  (["free text", "free-text", "freetext", "comment", "comments", "kommentar",
    "bemerkung"]).map String.toList
def UNIT_TOKENS : List Str := (["unit", "units", "einheit"]).map String.toList
def CHECK_TOKENS : List Str := (["check", "status"]).map String.toList

/-- excel-extractor.ts lines 51-54: header normalization without stopword
removal. -/
def normHeader (input : Str) : Str := normalizeText input Mode.basic

/-- excel-extractor.ts lines 56-62: does the (re-normalized) header text equal
or contain one of the keyword tokens? -/
def tokenMatches (headerNorm : Str) (tokens : List Str) : Bool :=
  let h := normHeader headerNorm
  tokens.any (fun t =>
    let tn := normHeader t
    h = tn || strIncludes h tn)

/-- excel-extractor.ts lines 270-288: `isLikelyLabel`. -/
def isLikelyLabel (val : Cell) : Bool :=
  if truthy val = false then false
  else
    let text := trimStr (strRepr val)
    if text.length < 2 then false
    else if MAX_LABEL_CHARS < text.length then false
    else
      let norm := normalizeText text Mode.strong
      if norm.isEmpty || norm.length < 2 then false
      else if text.all
          (fun c => isDigitChar c || c = '.' || c = '-' || c = '_' || c = '/')
        then false
      else
        let tokens := (splitOnSpace norm).filter (fun t => ¬ t.isEmpty)
        if MAX_LABEL_TOKENS < tokens.length then false
        else
          let letters := (text.filter isAsciiAlpha).length
          if letters < 2 then false
          else if GARBAGE_LABELS.contains norm then false
          else true

/-- excel-extractor.ts lines 294-312: `isLikelyValue`. -/
def isLikelyValue (val : Cell) : Bool :=
  match val with
  | Cell.undef => false
  | Cell.num _ => true
  | Cell.bool _ => true
  | Cell.str t =>
    let s := trimStr t
    if s.isEmpty then false
    else
      let lower := s.map toLowerChar
      if (["-", "n/a", "na", "none", "tbd"].map String.toList).contains lower
        then false
      else if 60 < s.length then false
      else
        let norm := normalizeText s Mode.strong
        let tokenCount := if norm.isEmpty = false then (splitOnSpace norm).length
          else 0
        if 8 < tokenCount then false
        else if isLikelyLabel (Cell.str s) && 18 < s.length then false
        else true

/-- excel-extractor.ts lines 290-292: `generateId`.  The random draw
`Math.floor(Math.random() * 1000)` is the explicit argument `rand % 1000`. -/
def generateId (name : Str) (rand : ℕ) : Str :=
  (((name.map toLowerChar).map (fun c => if isLowerAlnum c then c else '_')).take
      20) ++ '_' :: Nat.toDigits 10 (rand % 1000)

/-- excel-extractor.ts lines 849-867: `normalizeCheckStatus`. -/
def normalizeCheckStatus (value : Str) : Str :=
  let raw := trimStr value
  if raw.isEmpty then []
  else
    let v := raw.map toLowerChar
    if v = "ok".toList then "ok".toList
    else if v = "nok".toList || v = "not ok".toList || v = "notok".toList then
      "nok".toList
    else if v = "na".toList || v = "n a".toList || v = "n/a".toList then
      "na".toList
    else if v = "r".toList then "R".toList
    else if v = "rd".toList then "RD".toList
    else if v = "o".toList then "O".toList
    else raw

/-- excel-extractor.ts lines 842-847: `cellToString`. -/
def cellToString (row : List Cell) (col : Option ℕ) : Str :=
  match col with
  | none => []
  | some c =>
    let v := getCell row c
    if v = Cell.undef then [] else trimStr (strRepr v)

/-- excel-extractor.ts lines 614-620: `firstNonEmptyCol` (`none` models -1). -/
def firstNonEmptyCol (row : List Cell) : Option ℕ :=
  List.findIdx? (fun v => nonEmptyCell v) row

/-- excel-extractor.ts lines 455-464: `isParametercheckRow`. -/
def isParametercheckRow (row : List Cell) : Bool :=
  match firstNonEmptyCol row with
  | none => false
  | some c =>
    let v := getCell row c
    if truthy v = false then false
    else List.isPrefixOf "parameterche".toList
      (normalizeText (strRepr v) Mode.strong)

/-- excel-extractor.ts lines 601-612: `isCategoryRow` (exactly one non-empty
cell, which is label-like). -/
def isCategoryRow (row : List Cell) : Bool :=
  match firstNonEmptyCol row with
  | none => false
  | some i =>
    if isLikelyLabel (getCell row i) = false then false
    else row.enum.all (fun p => p.1 = i || nonEmptyCell p.2 = false)

/-- excel-extractor.ts lines 953-976: `prevRowIsCategorySeparator`. -/
def prevRowIsCategorySeparator (prevRow : List Cell) : Bool :=
  if prevRow.isEmpty then false
  else prevRow.any (fun cell =>
    if cell = Cell.undef then false
    else
      let s := trimStr (strRepr cell)
      if s.isEmpty then false
      else
        let norm := normalizeText s Mode.strong
        List.isPrefixOf "parameterche".toList norm ||
          tokenMatches norm COMMENT_TOKENS || tokenMatches norm UNIT_TOKENS ||
          tokenMatches norm CHECK_TOKENS || tokenMatches norm PARAM_TOKENS)

/-- excel-extractor.ts lines 983-986: `isCategoryRowWithContext`. -/
def isCategoryRowWithContext (row prevRow : List Cell) : Bool :=
  isCategoryRow row && prevRowIsCategorySeparator prevRow

/-- excel-extractor.ts lines 444-454: `readParamNameFromRow`. -/
def readParamNameFromRow (row : List Cell) (paramCol : Option ℕ) : Str :=
  let scan3 : Str :=
    match (row.take 3).find? isLikelyLabel with
    | some v => trimStr (strRepr v)
    | none => []
  match paramCol with
  | some pc =>
    if pc < row.length then
      let v := getCell row pc
      if isLikelyLabel v then trimStr (strRepr v) else scan3
    else scan3
  | none => scan3

/-- excel-extractor.ts lines 193-201: `calculateMatchScore`.  The first branch
is the case-insensitive target-id substring shortcut. -/
def calculateMatchScore (targetName targetId cellText : Str) : ℚ :=
  if targetId.isEmpty = false &&
      strIncludes (cellText.map toLowerChar) (targetId.map toLowerChar) then 100
  else
    let normTarget := normalizeText targetName Mode.strong
    let normCell := normalizeText cellText Mode.strong
    if normCell = normTarget then 100
    else tokenSetRatio targetName cellText

/-! ### Association lists modelling JS `Map` / plain objects

JS `Map.set` and `obj[k] = v` update an existing key in place (keeping first
insertion order) or append a new one; lookup returns the stored value. -/

def setKV {κ α : Type} [DecidableEq κ] (l : List (κ × α)) (k : κ) (v : α) :
    List (κ × α) :=
  match l with
  | [] => [(k, v)]
  | (k0, v0) :: rest =>
    if k0 = k then (k0, v) :: rest else (k0, v0) :: setKV rest k v

def lookupKV {κ α : Type} [DecidableEq κ] (l : List (κ × α)) (k : κ) : Option α :=
  (l.find? (fun p => p.1 = k)).map (fun p => p.2)

/-! ### excel-extractor.ts lines 622-685: `extractVariantNames` -/

/-- First row containing a cell whose strong normalization contains the
landmark phrase. -/
def variantsLandmarkRow (g : Grid) : Option ℕ :=
  List.findIdx? (fun row => row.any (fun v =>
    truthy v && strIncludes (normalizeText (strRepr v) Mode.strong)
      "customer platform variants".toList)) g

/-- Within 12 rows of the landmark, the first cell normalizing to "name"
(its row is the variant-list header, its column the name column). -/
def findNameCell (g : Grid) (startRow : ℕ) : Option (ℕ × ℕ) :=
  (List.range' startRow (min (startRow + 12) g.length - startRow)).findSome?
    (fun r =>
      (List.findIdx? (fun v =>
          truthy v && normalizeText (strRepr v) Mode.strong = "name".toList)
        (getRow g r)).map (fun c => (r, c)))

/-- The collection loop: walk rows below the header (the fuel is the number of
remaining rows up to the loop bound), tolerate up to 7 empty rows (stop at a
streak of 8), skip "attention" note rows. -/
def collectVariantNames (g : Grid) (nameCol : ℕ) : ℕ → ℕ → ℕ → List Str
  | 0, _, _ => []
  | fuel + 1, r, streak =>
    let row := getRow g r
    let v := getCell row nameCol
    let name := if v = Cell.undef then [] else trimStr (strRepr v)
    if name.isEmpty then
      if 8 ≤ streak + 1 then []
      else collectVariantNames g nameCol fuel (r + 1) (streak + 1)
    else if strIncludes (normalizeText name Mode.strong) "attention".toList then
      collectVariantNames g nameCol fuel (r + 1) 0
    else name :: collectVariantNames g nameCol fuel (r + 1) 0

def extractVariantNames (g : Grid) : List Str :=
  match variantsLandmarkRow g with
  | none => []
  | some startRow =>
    match findNameCell g startRow with
    | none => []
    | some rc =>
      dedupFirst
        (collectVariantNames g rc.2 (min (rc.1 + 300) g.length - (rc.1 + 1))
          (rc.1 + 1) 0)

/-! ### excel-extractor.ts lines 687-734: `findMatrixHeaderRow` -/

structure HeaderInfo where
  headerRow : ℕ
  colMap : List (ℕ × Str)
  paramCol : Option ℕ
  commentCol : Option ℕ
  checkCol : Option ℕ
  unitCol : Option ℕ
deriving DecidableEq, Repr

structure MHState where
  matchCount : ℕ
  colMap : List (ℕ × Str)
  paramCol : Option ℕ
  commentCol : Option ℕ
  checkCol : Option ℕ
  unitCol : Option ℕ

/-- Per-cell step of the variant-anchored header scan (lines 705-727). -/
def mhStep (variants : List Str) (st : MHState) (p : ℕ × Cell) : MHState :=
  let c := p.1
  let v := p.2
  if truthy v = false then st
  else
    let cell := trimStr (strRepr v)
    if cell.isEmpty then st
    else
      let cellNorm := normHeader cell
      if tokenMatches cellNorm PARAM_TOKENS then {st with paramCol := some c}
      else if tokenMatches cellNorm CHECK_TOKENS then {st with checkCol := some c}
      else if tokenMatches cellNorm COMMENT_TOKENS then
        {st with commentCol := some c}
      else if tokenMatches cellNorm UNIT_TOKENS then {st with unitCol := some c}
      else
        match variants.find?
            (fun vn => decide (VARIANT_HEADER_MATCH ≤ tokenSetRatio cell vn)) with
        | some vn =>
          {st with matchCount := st.matchCount + 1, colMap := st.colMap ++ [(c, vn)]}
        | none => st

def findMatrixHeaderRow (g : Grid) (variants : List Str) : Option HeaderInfo :=
  g.enum.findSome? (fun rp =>
    let st := rp.2.enum.foldl (mhStep variants) ⟨0, [], none, none, none, none⟩
    if 0 < st.matchCount ∧ max 1 (variants.length / 2) ≤ st.matchCount then
      some ⟨rp.1, st.colMap, st.paramCol, st.commentCol, st.checkCol, st.unitCol⟩
    else none)

/-! ### excel-extractor.ts lines 736-840: `findHeaderRowByTokens` -/

/-- Lines 829-840: `getHeaderCellValue` (the source's unused `paramCol`
argument is omitted). -/
def getHeaderCellValue (g : Grid) (rowIndex colIndex : ℕ) (preferBelow : Bool) :
    Str :=
  let primaryRow := if preferBelow then rowIndex + 1 else rowIndex
  let secondaryRow := if preferBelow then rowIndex else rowIndex + 1
  let v1 := getCell (getRow g primaryRow) colIndex
  if v1 ≠ Cell.undef && (trimStr (strRepr v1)).isEmpty = false then
    trimStr (strRepr v1)
  else
    let v0 := getCell (getRow g secondaryRow) colIndex
    if v0 ≠ Cell.undef && (trimStr (strRepr v0)).isEmpty = false then
      trimStr (strRepr v0)
    else []

structure RoleCols where
  paramCol : Option ℕ
  commentCol : Option ℕ
  checkCol : Option ℕ
  unitCol : Option ℕ

/-- Per-cell fixed-role classification (lines 753-766). -/
def roleStep (st : RoleCols) (p : ℕ × Cell) : RoleCols :=
  let c := p.1
  let v := p.2
  if truthy v = false then st
  else
    let cell := trimStr (strRepr v)
    if cell.isEmpty then st
    else
      let cellNorm := normHeader cell
      if tokenMatches cellNorm PARAM_TOKENS then {st with paramCol := some c}
      else if tokenMatches cellNorm CHECK_TOKENS then {st with checkCol := some c}
      else if tokenMatches cellNorm COMMENT_TOKENS then
        {st with commentCol := some c}
      else if tokenMatches cellNorm UNIT_TOKENS then {st with unitCol := some c}
      else st

/-- `o ?? -1` for column indices. -/
def optD (o : Option ℕ) : ℤ := o.elim (-1) (fun n => (n : ℤ))

/-- First collection loop (lines 775-795): walk right of the fixed columns
(the fuel is the number of remaining columns up to the row length) collecting
candidate variant header cells (header row preferred). -/
def collectCols1 (g : Grid) (r : ℕ) :
    ℕ → ℕ → ℕ → List (ℕ × Str) → ℕ × List (ℕ × Str)
  | 0, _, found, colMap => (found, colMap)
  | fuel + 1, c, found, colMap =>
    let cell := getHeaderCellValue g r c false
    if cell.isEmpty then collectCols1 g r fuel (c + 1) found colMap
    else
      let cellNorm := normHeader cell
      if tokenMatches cellNorm PARAM_TOKENS ||
          tokenMatches cellNorm CHECK_TOKENS ||
          tokenMatches cellNorm COMMENT_TOKENS ||
          tokenMatches cellNorm UNIT_TOKENS then
        collectCols1 g r fuel (c + 1) found colMap
      else
        let normStrong := normalizeText cell Mode.strong
        if GARBAGE_LABELS.contains normStrong then
          collectCols1 g r fuel (c + 1) found colMap
        else
          let found2 := found + 1
          let cm2 := colMap ++ [(c, cell)]
          if 12 ≤ found2 then (found2, cm2)
          else collectCols1 g r fuel (c + 1) found2 cm2

/-- Second collection loop (lines 797-819): retry preferring the row below,
giving up after 5 empty header cells. -/
def collectCols2 (g : Grid) (r : ℕ) :
    ℕ → ℕ → ℕ → ℕ → List (ℕ × Str) → ℕ × List (ℕ × Str)
  | 0, _, found, _, colMap => (found, colMap)
  | fuel + 1, c, found, streak, colMap =>
    let cell := getHeaderCellValue g r c true
    if cell.isEmpty then
      if 5 ≤ streak + 1 then (found, colMap)
      else collectCols2 g r fuel (c + 1) found (streak + 1) colMap
    else
      let cellNorm := normHeader cell
      if tokenMatches cellNorm PARAM_TOKENS ||
          tokenMatches cellNorm CHECK_TOKENS ||
          tokenMatches cellNorm COMMENT_TOKENS ||
          tokenMatches cellNorm UNIT_TOKENS then
        collectCols2 g r fuel (c + 1) found streak colMap
      else
        let normStrong := normalizeText cell Mode.strong
        if GARBAGE_LABELS.contains normStrong then
          collectCols2 g r fuel (c + 1) found streak colMap
        else
          let found2 := found + 1
          let cm2 := colMap ++ [(c, cell)]
          if 12 ≤ found2 then (found2, cm2)
          else collectCols2 g r fuel (c + 1) found2 streak cm2

def findHeaderRowByTokens (g : Grid) : Option HeaderInfo :=
  g.enum.findSome? (fun rp =>
    let r := rp.1
    let row := rp.2
    let roles := row.enum.foldl roleStep ⟨none, none, none, none⟩
    if roles.paramCol = none ∧ roles.commentCol = none then none
    else
      let startCol : ℕ :=
        (max (max (optD roles.paramCol) (optD roles.commentCol))
          (max (optD roles.unitCol) (optD roles.checkCol)) + 1).toNat
      let fc1 := collectCols1 g r (row.length - startCol) startCol 0 []
      let res :=
        if fc1.1 < 1 then
          collectCols2 g r (row.length - startCol) startCol 0 0 fc1.2
        else fc1
      if 1 ≤ res.2.length then
        some ⟨r, res.2, roles.paramCol, roles.commentCol, roles.checkCol,
          roles.unitCol⟩
      else none)

/-- excel-extractor.ts lines 324-335: variant-anchored strategy with at least
`MIN_VARIANTS_FOR_ANCHOR` names, else (or on failure) the token strategy. -/
def locateHeader (g : Grid) : Option HeaderInfo :=
  let variantNames := extractVariantNames g
  if MIN_VARIANTS_FOR_ANCHOR ≤ variantNames.length then
    match findMatrixHeaderRow g variantNames with
    | some h => some h
    | none => findHeaderRowByTokens g
  else findHeaderRowByTokens g

/-! ### excel-extractor.ts lines 470-599: `refineColumns` -/

structure ColStat where
  nonEmpty : ℕ
  unitLike : ℕ
  checkLike : ℕ
deriving DecidableEq, Repr

def UNIT_WHITELIST : List Str :=
  (["-", "—", "[-]", "mm", "cm", "m", "kg", "g", "bar", "mbar", "pa", "kpa",
    "mpa", "v", "mv", "a", "ma", "nm", "n", "kn", "s", "ms", "%", "deg",
    "°c", "c"]).map String.toList

/-- `/[\[\(\{].*[\]\)\}]/.test(compact)`: some opening bracket is followed by
some closing bracket. -/
def hasOpenThenClose (s : Str) : Bool :=
  match s.dropWhile (fun c => isOpenBracket c = false) with
  | [] => false
  | _ :: t => t.any isCloseBracket

/-- `compact.replace(/^[\[\(\{]/, '')`. -/
def stripLeadOpen (s : Str) : Str :=
  match s with
  | [] => []
  | c :: t => if isOpenBracket c then t else c :: t

/-- `compact.replace(/[\]\)\}]$/, '')`. -/
def stripTrailClose (s : Str) : Str :=
  match s.reverse with
  | [] => []
  | c :: t => if isCloseBracket c then t.reverse else s

/-- Lines 500-530: `isUnitLike`. -/
def isUnitLike (v : Cell) : Bool :=
  if v = Cell.undef then false
  else
    let raw := trimStr (strRepr v)
    if raw.isEmpty then false
    else
      let compact := raw.filter (fun c => isWSChar c = false)
      if compact = "[-]".toList || compact = "-".toList || compact = "—".toList
        then true
      else if hasOpenThenClose compact then
        let inner := (stripTrailClose (stripLeadOpen compact)).map toLowerChar
        if UNIT_WHITELIST.contains inner then true
        else
          (1 ≤ inner.length && inner.length ≤ 12 &&
            inner.all (fun c =>
              c = '-' || isLowerAlnum c || c = '/' || c = '%' || c = '°')) &&
          inner.any (fun c => isLowerAlpha c || c = '%' || c = '°')
      else
        let low := compact.map toLowerChar
        if (["check", "status", "ok", "nok", "na", "n/a", "yes", "no"].map
            String.toList).contains low then false
        else UNIT_WHITELIST.contains low

/-- Lines 532-537: `isCheckLike`. -/
def isCheckLike (v : Cell) : Bool :=
  if v = Cell.undef then false
  else
    let s := (trimStr (strRepr v)).map toLowerChar
    if s.isEmpty then false
    else (["ok", "nok", "na", "n/a", "check", "status", "yes", "no"].map
      String.toList).contains s

/-- One sampled non-empty cell updates its column's counters. -/
def bumpStat (acc : List (ℕ × ColStat)) (c : ℕ) (v : Cell) :
    List (ℕ × ColStat) :=
  let st := (lookupKV acc c).getD ⟨0, 0, 0⟩
  setKV acc c
    ⟨st.nonEmpty + 1, st.unitLike + (if isUnitLike v then 1 else 0),
      st.checkLike + (if isCheckLike v then 1 else 0)⟩

/-- Lines 539-551: sample the data rows, building per-column statistics in
first-encounter order (JS `Map` iteration order). -/
def buildColStats (g : Grid) (start stop : ℕ) : List (ℕ × ColStat) :=
  (List.range' start (stop - start)).foldl (fun acc r =>
    (getRow g r).enum.foldl (fun acc2 p =>
      if p.2 ≠ Cell.undef ∧ (trimStr (strRepr p.2)).isEmpty = false then
        bumpStat acc2 p.1 p.2
      else acc2) acc) []

/-- Lines 553-577: `bestByRatio`. -/
def bestByRatio (stats : List (ℕ × ColStat)) (kindSel : ColStat → ℕ)
    (preferNear : Option ℕ) : Option ℕ :=
  (stats.foldl (fun best p =>
    let c := p.1
    let st := p.2
    if st.nonEmpty < 6 then best
    else
      let ratio : ℚ := (kindSel st : ℚ) / (st.nonEmpty : ℚ)
      if ratio < (0.40 : ℚ) then best
      else
        let score : ℚ := ratio * 100 -
          (match preferNear with
            | some pn => min 25 ((((c : ℤ) - (pn : ℤ)).natAbs : ℚ) * 2)
            | none => 0)
        if best.2 < score then (some c, score) else best)
    ((none : Option ℕ), (0 : ℚ))).1

structure RefinedCols where
  headerRow : ℕ
  paramCol : Option ℕ
  commentCol : Option ℕ
  checkCol : Option ℕ
  unitCol : Option ℕ
  colMap : List (ℕ × Str)

/-- Lines 470-599: `refineColumns` — keep keyword-found columns, infer only
missing unit/check columns from data contents. -/
def refineColumns (g : Grid) (h : HeaderInfo) : RefinedCols :=
  let start := h.headerRow + 1
  let stop := min g.length (start + 50)
  let stats := buildColStats g start stop
  let inferredUnitCol :=
    match h.unitCol with
    | some u => some u
    | none => bestByRatio stats (fun st => st.unitLike) h.paramCol
  let inferredCheckCol :=
    match h.checkCol with
    | some k => some k
    | none =>
      bestByRatio stats (fun st => st.checkLike)
        (match inferredUnitCol with
          | some u => some u
          | none => h.paramCol)
  ⟨h.headerRow, h.paramCol, h.commentCol, inferredCheckCol, inferredUnitCol,
    h.colMap⟩

/-! ### excel-extractor.ts lines 317-442: `parseMatrixFromSheet` -/

structure ParameterRow where
  id : Str
  name : Str
  unit : Str
  type : Str
  userComment : Str
  checkStatus : Str
deriving DecidableEq, Repr

structure ParameterGroup where
  groupName : Str
  parameters : List ParameterRow
deriving DecidableEq, Repr

structure Variant where
  id : Str
  name : Str
  values : List (Str × Cell)
deriving DecidableEq, Repr

structure MatrixResult where
  parameterGroups : List ParameterGroup
  variants : List Variant
deriving DecidableEq, Repr

structure P1State where
  groupName : Str
  params : List ParameterRow
  groups : List ParameterGroup
  k : ℕ

/-- Pass 1 (lines 350-386), one row: skip "parametercheck" separator rows,
flush groups at contextual category rows, otherwise build a `ParameterRow`
(consuming one random draw for its id). -/
def pass1Step (g : Grid) (paramCol commentCol checkCol unitCol : Option ℕ)
    (rng : ℕ → ℕ) (s : P1State) (r : ℕ) : P1State :=
  let row := getRow g r
  if isParametercheckRow row then s
  else
    let prevRow := getRow g (r - 1)
    if isCategoryRowWithContext row prevRow then
      let nm :=
        match firstNonEmptyCol row with
        | some i => trimStr (strRepr (getCell row i))
        | none => []
      if s.params.isEmpty = false then
        ⟨nm, [], s.groups ++ [⟨s.groupName, s.params⟩], s.k⟩
      else ⟨nm, [], s.groups, s.k⟩
    else
      let paramName := readParamNameFromRow row paramCol
      if paramName.isEmpty then s
      else
        let norm := normalizeText paramName Mode.strong
        if norm.isEmpty || GARBAGE_LABELS.contains norm then s
        else
          let unit := cellToString row unitCol
          let comment := cellToString row commentCol
          let check := normalizeCheckStatus (cellToString row checkCol)
          let p : ParameterRow :=
            ⟨generateId paramName (rng s.k), paramName, unit, "text".toList,
              comment, check⟩
          ⟨s.groupName, s.params ++ [p], s.groups, s.k + 1⟩

/-- Pass 1 over all rows below the header, with the final group flush. -/
def pass1Groups (g : Grid) (headerRow : ℕ)
    (paramCol commentCol checkCol unitCol : Option ℕ) (rng : ℕ → ℕ) :
    List ParameterGroup :=
  let rows := List.range' (headerRow + 1) (g.length - (headerRow + 1))
  let fin := rows.foldl (pass1Step g paramCol commentCol checkCol unitCol rng)
    ⟨"General Parameters".toList, [], [], 0⟩
  if fin.params.isEmpty = false then fin.groups ++ [⟨fin.groupName, fin.params⟩]
  else fin.groups

/-- Insertion sort by column index, modelling `.sort((a, b) => a.col - b.col)`
(column indices are pairwise distinct, so stability is irrelevant). -/
def insertByCol (e : ℕ × Str) : List (ℕ × Str) → List (ℕ × Str)
  | [] => [e]
  | f :: rest => if e.1 < f.1 then e :: f :: rest else f :: insertByCol e rest

def sortByCol (l : List (ℕ × Str)) : List (ℕ × Str) := l.foldr insertByCol []

/-- Pass 2 (lines 419-439), one row: fill variant values for a recognized
parameter row.  `List.set` models `variants[vi].values[param.id] = v` (the
index is always in range by construction). -/
def pass2Step (g : Grid) (paramCol : Option ℕ) (cleanColEntries : List (ℕ × Str))
    (colIdx : List (ℕ × ℕ)) (paramIndex : List (Str × ParameterRow))
    (vs : List Variant) (r : ℕ) : List Variant :=
  let row := getRow g r
  if isParametercheckRow row then vs
  else if isCategoryRow row then vs
  else
    let paramName := readParamNameFromRow row paramCol
    if paramName.isEmpty then vs
    else
      let key := normalizeText paramName Mode.strong
      match lookupKV paramIndex key with
      | none => vs
      | some param =>
        cleanColEntries.foldl (fun acc ce =>
          let v := getCell row ce.1
          if isLikelyValue v = false then acc
          else
            match lookupKV colIdx ce.1 with
            | none => acc
            | some vi =>
              match acc.get? vi with
              | none => acc
              | some vt =>
                acc.set vi {vt with values := setKV vt.values param.id v}) vs

/-- excel-extractor.ts lines 317-442: `parseMatrixFromSheet`, with the random
draws of `generateId` supplied by the explicit stream `rng`. -/
def parseMatrixFromSheet (g : Grid) (rng : ℕ → ℕ) : Option MatrixResult :=
  match locateHeader g with
  | none => none
  | some header =>
    let refined := refineColumns g header
    let groups := pass1Groups g refined.headerRow refined.paramCol
      refined.commentCol refined.checkCol refined.unitCol rng
    let fixedMax := max (max (optD refined.paramCol) (optD refined.commentCol))
      (max (optD refined.checkCol) (optD refined.unitCol))
    let cleanColEntries :=
      sortByCol (refined.colMap.filter (fun e => fixedMax < (e.1 : ℤ)))
    let variants0 := cleanColEntries.enum.map (fun p =>
      ({ id := 'v' :: Nat.toDigits 10 (p.1 + 1),
         name := if (p.2.2).isEmpty = false then p.2.2
           else "Variant ".toList ++ Nat.toDigits 10 (p.1 + 1),
         values := [] } : Variant))
    let colIdx := cleanColEntries.enum.foldl
      (fun m p => setKV m p.2.1 p.1) ([] : List (ℕ × ℕ))
    let paramIndex := groups.foldl (fun m gr =>
      gr.parameters.foldl
        (fun m2 p => setKV m2 (normalizeText p.name Mode.strong) p) m)
      ([] : List (Str × ParameterRow))
    let rows := List.range' (refined.headerRow + 1)
      (g.length - (refined.headerRow + 1))
    let variants := rows.foldl
      (pass2Step g refined.paramCol cleanColEntries colIdx paramIndex) variants0
    some ⟨groups, variants⟩

/-! ## Lemmas about the token-set machinery -/

theorem splitOnSpace_ne_nil (s : Str) : splitOnSpace s ≠ [] := by
  cases s with
  | nil => simp [splitOnSpace]
  | cons c rest =>
    simp only [splitOnSpace]
    split
    · simp
    · split <;> simp

theorem mem_dedupFirstGo {x : Str} :
    ∀ {seen l : List Str},
      x ∈ dedupFirstGo seen l ↔ (x ∈ l ∧ seen.contains x = false) := by
  intro seen l
  induction l generalizing seen with
  | nil => simp [dedupFirstGo]
  | cons a l ih =>
    by_cases h : seen.contains a = true
    · rw [dedupFirstGo, if_pos h]
      rw [ih]
      simp only [List.mem_cons]
      constructor
      · rintro ⟨hx, hc⟩
        exact ⟨Or.inr hx, hc⟩
      · rintro ⟨hax, hc⟩
        rcases hax with rfl | hx
        · rw [h] at hc; cases hc
        · exact ⟨hx, hc⟩
    · have h' : seen.contains a = false := by simpa using h
      rw [dedupFirstGo, if_neg h]
      simp only [List.mem_cons, ih, List.contains_cons, Bool.or_eq_false_iff,
        beq_eq_false_iff_ne]
      constructor
      · rintro (rfl | ⟨hx, hne, hc⟩)
        · exact ⟨Or.inl rfl, h'⟩
        · exact ⟨Or.inr hx, hc⟩
      · rintro ⟨rfl | hx, hc⟩
        · exact Or.inl rfl
        · by_cases hxa : x = a
          · exact Or.inl hxa
          · exact Or.inr ⟨hx, fun he => hxa (by simpa using he), hc⟩

theorem nodup_dedupFirstGo : ∀ (seen l : List Str), (dedupFirstGo seen l).Nodup := by
  intro seen l
  induction l generalizing seen with
  | nil => simp [dedupFirstGo]
  | cons a l ih =>
    by_cases h : seen.contains a = true
    · rw [dedupFirstGo, if_pos h]
      exact ih seen
    · rw [dedupFirstGo, if_neg h]
      rw [List.nodup_cons]
      refine ⟨fun hmem => ?_, ih _⟩
      rw [mem_dedupFirstGo] at hmem
      simp [List.contains_cons] at hmem

theorem nodup_dedupFirst (l : List Str) : (dedupFirst l).Nodup :=
  nodup_dedupFirstGo [] l

theorem mem_dedupFirst {x : Str} {l : List Str} : x ∈ dedupFirst l ↔ x ∈ l := by
  simp [dedupFirst, mem_dedupFirstGo]

theorem toFinset_dedupFirst (l : List Str) :
    (dedupFirst l).toFinset = l.toFinset := by
  ext x
  simp [List.mem_toFinset, mem_dedupFirst]

theorem dedupFirst_ne_nil {l : List Str} (h : l ≠ []) : dedupFirst l ≠ [] := by
  cases l with
  | nil => exact absurd rfl h
  | cons a l => simp [dedupFirst, dedupFirstGo]

/-- The intersection count of the token sets, as a `Finset` cardinality. -/
theorem filter_contains_length (A B : List Str) (hA : A.Nodup) :
    (A.filter (fun x => B.contains x)).length =
      (A.toFinset ∩ B.toFinset).card := by
  have h1 : (A.filter (fun x => B.contains x)).Nodup := hA.filter _
  rw [← List.toFinset_card_of_nodup h1, List.toFinset_filter]
  congr 1
  ext x
  simp [Finset.mem_filter, Finset.mem_inter, List.mem_toFinset]

/-- Reduce `tokenSetRatio` to concrete counts once the normalized forms and
the token-set sizes have been computed. -/
theorem tokenSetRatio_eq_of (a b s1 s2 : Str) (i n1 n2 : ℕ)
    (h1 : normalizeText a Mode.strong = s1)
    (h2 : normalizeText b Mode.strong = s2)
    (hne1 : s1.isEmpty = false) (hne2 : s2.isEmpty = false)
    (hi : ((dedupFirst (splitOnSpace s1)).filter
      (fun x => (dedupFirst (splitOnSpace s2)).contains x)).length = i)
    (hn1 : (dedupFirst (splitOnSpace s1)).length = n1)
    (hn2 : (dedupFirst (splitOnSpace s2)).length = n2) :
    tokenSetRatio a b = (((i : ℚ) / n1 + (i : ℚ) / n2) / 2) * 100 := by
  unfold tokenSetRatio
  dsimp only
  rw [h1, h2, hne1, hne2]
  simp only [Bool.or_self, Bool.false_eq_true, if_false, hi, hn1, hn2]

/-- C4, commutativity half: the intersection count is symmetric. -/
theorem inter_count_comm (A B : List Str) (hA : A.Nodup) (hB : B.Nodup) :
    (A.filter (fun x => B.contains x)).length =
      (B.filter (fun x => A.contains x)).length := by
  rw [filter_contains_length A B hA, filter_contains_length B A hB,
    Finset.inter_comm]

/-- Claim C4: for all inputs `a` and `b`, `tokenSetRatio(a,b)` equals
`tokenSetRatio(b,a)`; and for every input `a` whose strong-normalized form is
non-empty, `tokenSetRatio(a,a)` equals 100. -/
theorem C4_tokenSetRatio_comm_and_self :
    (∀ a b : Str, tokenSetRatio a b = tokenSetRatio b a) ∧
    (∀ a : Str, normalizeText a Mode.strong ≠ [] → tokenSetRatio a a = 100) := by
  constructor
  · intro a b
    unfold tokenSetRatio
    dsimp only
    rw [Bool.or_comm]
    cases e : ((normalizeText b Mode.strong).isEmpty ||
        (normalizeText a Mode.strong).isEmpty) with
    | true => simp [e]
    | false =>
      simp only [e, Bool.false_eq_true, if_false]
      rw [inter_count_comm _ _ (nodup_dedupFirst _) (nodup_dedupFirst _)]
      ring
  · intro a h
    unfold tokenSetRatio
    dsimp only
    have he : (normalizeText a Mode.strong).isEmpty = false := by
      simpa [List.isEmpty_iff] using h
    simp only [he, Bool.or_self, Bool.false_eq_true, if_false]
    have hfa : (dedupFirst (splitOnSpace (normalizeText a Mode.strong))).filter
        (fun x =>
          (dedupFirst (splitOnSpace (normalizeText a Mode.strong))).contains x) =
        dedupFirst (splitOnSpace (normalizeText a Mode.strong)) := by
      rw [List.filter_eq_self]
      intro x hx
      simpa using hx
    rw [hfa]
    have hne : (dedupFirst (splitOnSpace (normalizeText a Mode.strong))).length ≠ 0 := by
      simp only [ne_eq, List.length_eq_zero]
      exact dedupFirst_ne_nil (splitOnSpace_ne_nil _)
    have hq : ((dedupFirst (splitOnSpace (normalizeText a Mode.strong))).length : ℚ) ≠ 0 := by
      exact_mod_cast hne
    field_simp

/-- Witness for C4: a concrete non-empty input scores 100 against itself. -/
theorem C4_tokenSetRatio_comm_and_self_witness :
    normalizeText "Pressure".toList Mode.strong ≠ [] ∧
      tokenSetRatio "Pressure".toList "Pressure".toList = 100 :=
  ⟨by decide, C4_tokenSetRatio_comm_and_self.2 "Pressure".toList (by decide)⟩

/-- Claim C1: the spec (and the source's own comment in `tokenSetRatio`, which
names exactly this pair as the motivating match) require
`tokenSetRatio("Voltage Supply for Modulation", "Voltage Supply (Modulation)")`
to reach the minimum match threshold 88.  The code evaluates it to 250/3
(about 83.33): unit-bracket stripping deletes `(Modulation)` entirely from the
second input, so only 2 of the 3 target tokens survive to be matched, and the
averaged overlap is ((2/3) + (2/2)) / 2 * 100 = 250/3 < 88. -/
theorem C1_scenario4_score_below_threshold :
    tokenSetRatio "Voltage Supply for Modulation".toList
        "Voltage Supply (Modulation)".toList = 250 / 3 ∧
      tokenSetRatio "Voltage Supply for Modulation".toList
        "Voltage Supply (Modulation)".toList < MIN_MATCH_SCORE := by
  have h := tokenSetRatio_eq_of "Voltage Supply for Modulation".toList
    "Voltage Supply (Modulation)".toList
    "u sup modulation".toList "u sup".toList 2 3 2
    (by decide) (by decide) (by decide) (by decide) (by decide) (by decide)
    (by decide)
  rw [h]
  unfold MIN_MATCH_SCORE
  norm_num

/-- Claim C9: in targeted extraction, a non-empty target id occurring in the
cell text as a case-insensitive literal substring forces a match score of
exactly 100, regardless of the fuzzy token-set similarity. -/
theorem C9_id_substring_scores_100 (targetName targetId cellText : Str)
    (hid : targetId ≠ [])
    (hsub : strIncludes (cellText.map toLowerChar) (targetId.map toLowerChar) =
      true) :
    calculateMatchScore targetName targetId cellText = 100 := by
  have hne : targetId.isEmpty = false := by simpa [List.isEmpty_iff] using hid
  unfold calculateMatchScore
  rw [hne, hsub]
  simp

/-- Witness for C9 at the spec's Scenario 5 input: id "p1_1" embedded in a
cell with entirely different prose. -/
theorem C9_id_substring_scores_100_witness :
    "p1_1".toList ≠ [] ∧
      strIncludes ("see P1_1 here".toList.map toLowerChar)
        ("p1_1".toList.map toLowerChar) = true ∧
      calculateMatchScore "Completely Different Prose".toList "p1_1".toList
        "see P1_1 here".toList = 100 :=
  ⟨by decide, by decide,
    C9_id_substring_scores_100 "Completely Different Prose".toList
      "p1_1".toList "see P1_1 here".toList (by decide) (by decide)⟩

/-- Claim C8: `parseMatrixFromSheet` returns null exactly when neither header
strategy locates a matrix header row; otherwise it returns a result.  (In
this embedding every heuristic is a total function, reflecting that the
source degrades to "no match" rather than throwing.) -/
theorem C8_parse_null_iff_no_header (g : Grid) (rng : ℕ → ℕ) :
    parseMatrixFromSheet g rng = none ↔ locateHeader g = none := by
  unfold parseMatrixFromSheet
  cases h : locateHeader g <;> simp

/-- Witness for C8: on the empty grid no header is located and the parse is
null; on a one-row parameter/comment/variant header grid a result is
produced. -/
theorem C8_parse_null_iff_no_header_witness :
    parseMatrixFromSheet [] (fun _ => 0) = none :=
  (C8_parse_null_iff_no_header [] (fun _ => 0)).mpr (by decide)

/-! ## Claim C5: placeholder cells are never recorded as variant values -/

/-- A cell whose trimmed, lower-cased text is "-", "n/a" or "tbd". -/
def isPlaceholderCell (v : Cell) : Bool :=
  match v with
  | Cell.str t =>
    (["-", "n/a", "tbd"].map String.toList).contains ((trimStr t).map toLowerChar)
  | _ => false

theorem placeholder_not_likelyValue {v : Cell} (h : isPlaceholderCell v = true) :
    isLikelyValue v = false := by
  cases v with
  | undef => simp [isPlaceholderCell] at h
  | bool x => simp [isPlaceholderCell] at h
  | num n => simp [isPlaceholderCell] at h
  | str t =>
    have hmem : (trimStr t).map toLowerChar = "-".toList ∨
        (trimStr t).map toLowerChar = "n/a".toList ∨
        (trimStr t).map toLowerChar = "tbd".toList := by
      simpa [isPlaceholderCell] using h
    have hnil : trimStr t ≠ [] := by
      intro hnil
      rcases hmem with h1 | h1 | h1 <;> (rw [hnil] at h1; simp at h1)
    have hne : (trimStr t).isEmpty = false := by
      rw [Bool.eq_false_iff]
      intro htrue
      exact hnil (List.isEmpty_iff.mp htrue)
    have h5 : ((["-", "n/a", "na", "none", "tbd"].map String.toList).contains
        ((trimStr t).map toLowerChar)) = true := by
      rcases hmem with h1 | h1 | h1 <;> rw [h1] <;> decide
    unfold isLikelyValue
    simp only [hne, Bool.false_eq_true, if_false, h5, if_true]

theorem setKV_mem {κ α : Type} [DecidableEq κ] {l : List (κ × α)} {k : κ}
    {v : α} {p : κ × α} (h : p ∈ setKV l k v) : p ∈ l ∨ p = (k, v) := by
  induction l with
  | nil => simpa [setKV] using h
  | cons q rest ih =>
    rcases q with ⟨k0, v0⟩
    by_cases hk : k0 = k
    · rw [setKV, if_pos hk] at h
      rcases List.mem_cons.mp h with rfl | hrest
      · exact Or.inr (by rw [hk])
      · exact Or.inl (List.mem_cons_of_mem _ hrest)
    · rw [setKV, if_neg hk] at h
      rcases List.mem_cons.mp h with rfl | hrest
      · exact Or.inl (List.mem_cons_self _ _)
      · rcases ih hrest with hl | he
        · exact Or.inl (List.mem_cons_of_mem _ hl)
        · exact Or.inr he

theorem foldl_preserve {α β : Type} (P : α → Prop) (f : α → β → α) :
    ∀ (l : List β) (s : α), P s → (∀ s b, P s → P (f s b)) →
      P (l.foldl f s) := by
  intro l
  induction l with
  | nil => intro s hs _; simpa using hs
  | cons b l ih =>
    intro s hs hstep
    rw [List.foldl_cons]
    exact ih _ (hstep s b hs) hstep

/-- The pass-2 invariant: every recorded variant value passed `isLikelyValue`. -/
def AllValuesLikely (vs : List Variant) : Prop :=
  ∀ vt ∈ vs, ∀ kv ∈ vt.values, isLikelyValue kv.2 = true

theorem pass2Step_preserves (g : Grid) (paramCol : Option ℕ)
    (cleanColEntries : List (ℕ × Str)) (colIdx : List (ℕ × ℕ))
    (paramIndex : List (Str × ParameterRow)) (vs : List Variant) (r : ℕ)
    (hP : AllValuesLikely vs) :
    AllValuesLikely (pass2Step g paramCol cleanColEntries colIdx paramIndex vs r)
    := by
  unfold pass2Step
  dsimp only
  split
  · exact hP
  · split
    · exact hP
    · split
      · exact hP
      · split
        · exact hP
        · next param _ =>
          apply foldl_preserve _ _ _ _ hP
          intro acc ce hacc
          dsimp only
          split
          · exact hacc
          · next hv =>
            have hvtrue : isLikelyValue (getCell (getRow g r) ce.1) = true := by
              revert hv
              cases isLikelyValue (getCell (getRow g r) ce.1) <;> simp
            split
            · exact hacc
            · split
              · exact hacc
              · next vt hget =>
                intro vt' hmem kv hkv
                rcases List.mem_or_eq_of_mem_set hmem with hin | rfl
                · exact hacc vt' hin kv hkv
                · rcases setKV_mem hkv with hold | rfl
                  · exact hacc vt (List.get?_mem hget) kv hold
                  · exact hvtrue

/-- Every successful parse satisfies the pass-2 invariant. -/
theorem parse_variants_all_likely (g : Grid) (rng : ℕ → ℕ) (res : MatrixResult)
    (h : parseMatrixFromSheet g rng = some res) : AllValuesLikely res.variants
    := by
  unfold parseMatrixFromSheet at h
  cases hdr : locateHeader g with
  | none => rw [hdr] at h; cases h
  | some header =>
    rw [hdr] at h
    dsimp only at h
    rcases Option.some.inj h with rfl
    dsimp only
    apply foldl_preserve
    · intro vt hvt kv hkv
      rcases List.mem_map.mp hvt with ⟨p, _, rfl⟩
      simp at hkv
    · intro s b hs
      exact pass2Step_preserves _ _ _ _ _ _ _ hs

/-- Claim C5: in every result of `parseMatrixFromSheet`, no variant value map
entry holds a cell whose trimmed lower-cased text is "-", "n/a" or "tbd"
(`isLikelyValue` rejects these placeholders before they are recorded). -/
theorem C5_placeholders_never_recorded (g : Grid) (rng : ℕ → ℕ) :
    ((parseMatrixFromSheet g rng).elim true (fun res =>
      res.variants.all (fun vt =>
        vt.values.all (fun kv => !(isPlaceholderCell kv.2))))) = true := by
  cases h : parseMatrixFromSheet g rng with
  | none => simp
  | some res =>
    have hinv := parse_variants_all_likely g rng res h
    simp only [Option.elim]
    refine (List.all_eq_true).mpr ?_
    intro vt hvt
    refine (List.all_eq_true).mpr ?_
    intro kv hkv
    have hlik := hinv vt hvt kv hkv
    by_cases hp : isPlaceholderCell kv.2 = true
    · rw [placeholder_not_likelyValue hp] at hlik
      cases hlik
    · simp only [Bool.not_eq_true] at hp
      simp [hp]

/-! ## Claims C2 and C3: randomized ids -/

/-- A minimal grid whose header row is found by the token strategy and whose
two data rows carry the same parameter name.  Used for the id-collision
evaluation. -/
def C2grid : Grid := [
  [Cell.str "Parameter".toList, Cell.str "Comment".toList,
    Cell.str "Var1".toList, Cell.str "Var2".toList],
  [Cell.str "Pressure".toList, Cell.str [], Cell.num 12, Cell.num 13],
  [Cell.str "Pressure".toList, Cell.str [], Cell.num 14, Cell.num 15]]

/-- All ParameterRow ids of an extraction result, in order. -/
def extractionIds (o : Option MatrixResult) : List Str :=
  o.elim [] (fun res =>
    ((res.parameterGroups.map (fun gr => gr.parameters)).flatten).map
      (fun p => p.id))

/-- Claim C2: the claim says every ParameterRow id is unique within one
extraction result.  The code derives ids from the sanitized name plus a
random 0-999 suffix (`generateId`); when the random draws collide (here the
stream returns 5 both times), two parameters named "Pressure" both get the id
"pressure_5" and the result violates uniqueness — the collision risk the
spec's design notes flag as a latent bug. -/
theorem C2_duplicate_ids_on_collision :
    extractionIds (parseMatrixFromSheet C2grid (fun _ => 5)) =
      ["pressure_5".toList, "pressure_5".toList] ∧
    ¬ (extractionIds (parseMatrixFromSheet C2grid (fun _ => 5))).Nodup := by
  constructor
  · decide
  · decide

/-- A one-parameter grid for the determinism counterexample. -/
def C3grid : Grid := [
  [Cell.str "Parameter".toList, Cell.str "Comment".toList,
    Cell.str "Var1".toList, Cell.str "Var2".toList],
  [Cell.str "Pressure".toList, Cell.str [], Cell.num 12, Cell.num 13]]

/-- The `variants[].values` maps of a parse result. -/
def variantValuesOf (o : Option MatrixResult) : List (List (Str × Cell)) :=
  o.elim [] (fun res => res.variants.map (fun vt => vt.values))

/-- Counterexample to claim C3: two runs of `parseMatrixFromSheet` on the same
grid with different random draws produce different `variants[].values` — the
value maps are keyed by the randomized parameter ids ("pressure_1" vs
"pressure_2"), so they are not identical as the claim states. -/
theorem C3_values_differ_across_runs :
    variantValuesOf (parseMatrixFromSheet C3grid (fun _ => 1)) ≠
      variantValuesOf (parseMatrixFromSheet C3grid (fun _ => 2)) := by
  decide

/-- Erase the randomized id of a parameter. -/
def eraseParamId (p : ParameterRow) : ParameterRow :=
  { p with id := [] }

/-- Erase the randomized ids of a group's parameters. -/
def eraseGroupIds (gr : ParameterGroup) : ParameterGroup :=
  { gr with parameters := gr.parameters.map eraseParamId }

/-- The parameter groups of a parse result with all ids erased. -/
def groupsIgnoringIds (o : Option MatrixResult) : Option (List ParameterGroup) :=
  o.map (fun res => res.parameterGroups.map eraseGroupIds)

/-- The id-independent content of a pass-1 state. -/
def eraseP1 (s : P1State) : Str × List ParameterRow × List ParameterGroup :=
  (s.groupName, s.params.map eraseParamId, s.groups.map eraseGroupIds)

theorem map_eq_map_isEmpty {α β : Type} {f : α → β} {a b : List α}
    (h : a.map f = b.map f) : a.isEmpty = b.isEmpty := by
  cases a <;> cases b <;> simp_all

theorem pass1Step_erase_congr (g : Grid) (pc cc kc uc : Option ℕ)
    (r1 r2 : ℕ → ℕ) (s1 s2 : P1State) (r : ℕ) (h : eraseP1 s1 = eraseP1 s2) :
    eraseP1 (pass1Step g pc cc kc uc r1 s1 r) =
      eraseP1 (pass1Step g pc cc kc uc r2 s2 r) := by
  have hgn : s1.groupName = s2.groupName := congrArg Prod.fst h
  have hpar : s1.params.map eraseParamId = s2.params.map eraseParamId :=
    congrArg (fun q => q.2.1) h
  have hgr : s1.groups.map eraseGroupIds = s2.groups.map eraseGroupIds :=
    congrArg (fun q => q.2.2) h
  by_cases h1 : isParametercheckRow (getRow g r) = true
  · simp only [pass1Step, h1, if_true]
    exact h
  · by_cases h2 : isCategoryRowWithContext (getRow g r) (getRow g (r - 1)) = true
    · have hemp := map_eq_map_isEmpty hpar
      simp only [pass1Step, h1, h2, Bool.false_eq_true, if_false, if_true]
      rw [hemp]
      cases he : s2.params.isEmpty with
      | true =>
        simp only [Bool.true_eq_false, if_false, eraseP1, Prod.mk.injEq]
        exact ⟨trivial, by simp, hgr⟩
      | false =>
        simp only [if_true, eraseP1, Prod.mk.injEq]
        refine ⟨trivial, by simp, ?_⟩
        simp only [List.map_append, hgr, List.map_cons, List.map_nil,
          eraseGroupIds, hgn, hpar]
    · by_cases h3 : (readParamNameFromRow (getRow g r) pc).isEmpty = true
      · simp only [pass1Step, h1, h2, h3, Bool.false_eq_true, if_false, if_true]
        exact h
      · by_cases h4 :
          ((normalizeText (readParamNameFromRow (getRow g r) pc) Mode.strong).isEmpty
            || GARBAGE_LABELS.contains
              (normalizeText (readParamNameFromRow (getRow g r) pc) Mode.strong)) =
          true
        · simp only [pass1Step, h1, h2, h3, h4, Bool.false_eq_true, if_false,
            if_true]
          exact h
        · simp only [pass1Step, h1, h2, h3, h4, Bool.false_eq_true, if_false,
            eraseP1, Prod.mk.injEq]
          refine ⟨hgn, ?_, hgr⟩
          simp only [List.map_append, hpar, List.map_cons, List.map_nil,
            eraseParamId]

theorem foldl_erase_congr (g : Grid) (pc cc kc uc : Option ℕ) (r1 r2 : ℕ → ℕ) :
    ∀ (rows : List ℕ) (s1 s2 : P1State), eraseP1 s1 = eraseP1 s2 →
      eraseP1 (rows.foldl (pass1Step g pc cc kc uc r1) s1) =
        eraseP1 (rows.foldl (pass1Step g pc cc kc uc r2) s2) := by
  intro rows
  induction rows with
  | nil => intro s1 s2 h; simpa using h
  | cons r rows ih =>
    intro s1 s2 h
    simp only [List.foldl_cons]
    exact ih _ _ (pass1Step_erase_congr g pc cc kc uc r1 r2 s1 s2 r h)

theorem pass1Groups_erase_congr (g : Grid) (hr : ℕ) (pc cc kc uc : Option ℕ)
    (r1 r2 : ℕ → ℕ) :
    (pass1Groups g hr pc cc kc uc r1).map eraseGroupIds =
      (pass1Groups g hr pc cc kc uc r2).map eraseGroupIds := by
  unfold pass1Groups
  dsimp only
  have hfin := foldl_erase_congr g pc cc kc uc r1 r2
    (List.range' (hr + 1) (g.length - (hr + 1)))
    ⟨"General Parameters".toList, [], [], 0⟩
    ⟨"General Parameters".toList, [], [], 0⟩ rfl
  set f1 := (List.range' (hr + 1) (g.length - (hr + 1))).foldl
    (pass1Step g pc cc kc uc r1)
    ⟨"General Parameters".toList, [], [], 0⟩ with hf1
  set f2 := (List.range' (hr + 1) (g.length - (hr + 1))).foldl
    (pass1Step g pc cc kc uc r2)
    ⟨"General Parameters".toList, [], [], 0⟩ with hf2
  have hgn : f1.groupName = f2.groupName := congrArg Prod.fst hfin
  have hpar : f1.params.map eraseParamId = f2.params.map eraseParamId :=
    congrArg (fun q => q.2.1) hfin
  have hgr : f1.groups.map eraseGroupIds = f2.groups.map eraseGroupIds :=
    congrArg (fun q => q.2.2) hfin
  rw [map_eq_map_isEmpty hpar]
  cases he : f2.params.isEmpty with
  | true => simpa using hgr
  | false =>
    simp only [if_true, List.map_append, hgr, List.map_cons, List.map_nil,
      eraseGroupIds, hgn, hpar]

theorem pass1Groups_rng_congr (g : Grid) (hr : ℕ) (pc cc kc uc : Option ℕ)
    (r1 r2 : ℕ → ℕ) (h : ∀ k, r1 k % 1000 = r2 k % 1000) :
    pass1Groups g hr pc cc kc uc r1 = pass1Groups g hr pc cc kc uc r2 := by
  have hstep : pass1Step g pc cc kc uc r1 = pass1Step g pc cc kc uc r2 := by
    funext s r
    unfold pass1Step
    simp only [generateId, h]
  unfold pass1Groups
  rw [hstep]

/-- Claim C3, amended: for every grid, two runs of `parseMatrixFromSheet`
yield identical `parameterGroups` content once the randomized ids are erased;
and whenever the two runs draw the same random values, the entire results —
including `variants[].values` — are identical.  (As the counterexample shows,
the value maps are keyed by the randomized ids, so they are not identical for
arbitrary draws.) -/
theorem C3_parse_determinism_amended (g : Grid) (r1 r2 : ℕ → ℕ) :
    groupsIgnoringIds (parseMatrixFromSheet g r1) =
      groupsIgnoringIds (parseMatrixFromSheet g r2) ∧
    ((∀ k, r1 k % 1000 = r2 k % 1000) →
      parseMatrixFromSheet g r1 = parseMatrixFromSheet g r2) := by
  constructor
  · unfold parseMatrixFromSheet
    cases hdr : locateHeader g with
    | none => rfl
    | some header =>
      dsimp only [groupsIgnoringIds, Option.map]
      rw [pass1Groups_erase_congr g (refineColumns g header).headerRow
        (refineColumns g header).paramCol (refineColumns g header).commentCol
        (refineColumns g header).checkCol (refineColumns g header).unitCol r1 r2]
  · intro h
    unfold parseMatrixFromSheet
    cases hdr : locateHeader g with
    | none => rfl
    | some header =>
      dsimp only
      rw [pass1Groups_rng_congr g (refineColumns g header).headerRow
        (refineColumns g header).paramCol (refineColumns g header).commentCol
        (refineColumns g header).checkCol (refineColumns g header).unitCol r1 r2 h]

/-- Witness for the amended C3: equal draws (1 and 1001 agree modulo 1000)
give fully identical results on the counterexample grid. -/
theorem C3_parse_determinism_amended_witness :
    groupsIgnoringIds (parseMatrixFromSheet C3grid (fun _ => 1)) =
      groupsIgnoringIds (parseMatrixFromSheet C3grid (fun _ => 1001)) ∧
    parseMatrixFromSheet C3grid (fun _ => 1) =
      parseMatrixFromSheet C3grid (fun _ => 1001) := by
  have h := C3_parse_determinism_amended C3grid (fun _ => 1) (fun _ => 1001)
  exact ⟨h.1, h.2 (fun k => by decide)⟩

/-! ## Claim C7: strong normalization never emits stopword tokens -/

theorem mem_splitOnSpace_no_space :
    ∀ {s t : Str}, t ∈ splitOnSpace s → ' ' ∉ t := by
  intro s
  induction s with
  | nil =>
    intro t h
    simp only [splitOnSpace, List.mem_singleton] at h
    simp [h]
  | cons c rest ih =>
    intro t h
    simp only [splitOnSpace] at h
    by_cases hc : c = ' '
    · rw [if_pos hc] at h
      rcases List.mem_cons.mp h with rfl | h2
      · simp
      · exact ih h2
    · rw [if_neg hc] at h
      cases hsp : splitOnSpace rest with
      | nil => exact absurd hsp (splitOnSpace_ne_nil rest)
      | cons t0 ts =>
        rw [hsp] at h
        rcases List.mem_cons.mp h with rfl | h2
        · intro hmem
          rcases List.mem_cons.mp hmem with rfl | hmem2
          · exact hc rfl
          · exact ih (t := t0) (by rw [hsp]; exact List.mem_cons_self t0 ts)
              hmem2
        · exact ih (t := t) (by rw [hsp]; exact List.mem_cons_of_mem t0 h2)

theorem splitOnSpace_no_space_single {s : Str} (h : ' ' ∉ s) :
    splitOnSpace s = [s] := by
  induction s with
  | nil => rfl
  | cons c rest ih =>
    have hc : ¬ c = ' ' := fun he => h (he ▸ List.mem_cons_self c rest)
    have hr : ' ' ∉ rest := fun hm => h (List.mem_cons_of_mem c hm)
    simp only [splitOnSpace, if_neg hc, ih hr]

theorem splitOnSpace_append_space {a : Str} (s : Str) (h : ' ' ∉ a) :
    splitOnSpace (a ++ ' ' :: s) = a :: splitOnSpace s := by
  induction a with
  | nil => simp [splitOnSpace]
  | cons c a ih =>
    have hc : ¬ c = ' ' := fun he => h (he ▸ List.mem_cons_self c a)
    have ha : ' ' ∉ a := fun hm => h (List.mem_cons_of_mem c hm)
    rw [List.cons_append]
    show (if c = ' ' then [] :: splitOnSpace (a ++ ' ' :: s)
      else
        match splitOnSpace (a ++ ' ' :: s) with
        | [] => [[c]]
        | t :: ts => (c :: t) :: ts) = (c :: a) :: splitOnSpace s
    rw [if_neg hc, ih ha]

theorem joinSpace_cons_cons (a b : Str) (l : List Str) :
    joinSpace (a :: b :: l) = a ++ ' ' :: joinSpace (b :: l) := by
  simp [joinSpace, List.intercalate, List.intersperse]

theorem splitOnSpace_joinSpace {L : List Str} (hns : ∀ t ∈ L, ' ' ∉ t)
    (hne : L ≠ []) : splitOnSpace (joinSpace L) = L := by
  induction L with
  | nil => exact absurd rfl hne
  | cons a L ih =>
    cases L with
    | nil =>
      have : joinSpace [a] = a := by
        simp [joinSpace, List.intercalate, List.intersperse]
      rw [this, splitOnSpace_no_space_single (hns a (by simp))]
    | cons b L2 =>
      rw [joinSpace_cons_cons,
        splitOnSpace_append_space _ (hns a (by simp)),
        ih (fun t ht => hns t (List.mem_cons_of_mem a ht)) (by simp)]

/-- Claim C7: for every input, no whole space-delimited token of the strong
normalization output is a stopword (the final token filter removes them all,
including stopwords produced by the earlier synonym substitutions such as
"inner" → "in"). -/
theorem C7_no_stopword_tokens (x : Str) :
    ∀ t ∈ splitOnSpace (normalizeText x Mode.strong), t ∉ STOPWORDS := by
  intro t ht
  unfold normalizeText at ht
  by_cases h0 : (trimStr x).isEmpty = true
  · rw [if_pos h0] at ht
    simp only [splitOnSpace, List.mem_singleton] at ht
    subst ht
    decide
  · rw [if_neg h0] at ht
    dsimp only at ht
    have hbasic : ¬ (Mode.strong = Mode.basic) := by decide
    rw [if_neg hbasic] at ht
    set s7 := applyReplacements (trimStr (collapseWS (stripNonAlnum
      (stripUnitsBrackets ((((stripLeadDecor (trimStr x)).map
        toLowerChar)).map
        (fun c => if c = '/' || c = '-' || c = '_' then ' ' else c)))))) with hs7
    set tokens := (splitOnSpace s7).filter
      (fun t => !(STOPWORDS.contains t) && !(t.isEmpty)) with htok
    cases htk : tokens with
    | nil =>
      rw [htk] at ht
      rw [show joinSpace ([] : List Str) = [] from rfl] at ht
      simp only [splitOnSpace, List.mem_singleton] at ht
      subst ht
      decide
    | cons t0 ts =>
      have hns : ∀ u ∈ tokens, ' ' ∉ u := by
        intro u hu
        rw [htok] at hu
        exact mem_splitOnSpace_no_space (List.mem_of_mem_filter hu)
      rw [splitOnSpace_joinSpace hns (by rw [htk]; simp)] at ht
      rw [htok] at ht
      have hprop := List.of_mem_filter ht
      have hcont : STOPWORDS.contains t = false := by
        have hsplit : (!(STOPWORDS.contains t)) = true ∧ (!(t.isEmpty)) = true := by
          simpa using hprop
        simpa using hsplit.1
      intro hmem
      have helem : STOPWORDS.elem t = true := List.elem_iff.mpr hmem
      rw [show STOPWORDS.contains t = STOPWORDS.elem t from rfl, helem] at hcont
      cases hcont

/-- Witness for C7: "for the pressure" normalizes to the single token
"pressure", which is indeed not a stopword. -/
theorem C7_no_stopword_tokens_witness :
    "pressure".toList ∈
      splitOnSpace (normalizeText "for the pressure".toList Mode.strong) ∧
    "pressure".toList ∉ STOPWORDS :=
  ⟨by decide, C7_no_stopword_tokens "for the pressure".toList
    "pressure".toList (by decide)⟩

/-! ## Claim C10: the word "inner" under strong normalization -/

/-- Counterexample to claim C10: the labels "circuit 1" and "circuit inner 1"
differ only by the word "inner", yet they do not normalize identically —
"inner" is rewritten to "in" before the circuit rule runs, which breaks the
two-token pattern `circuit\s*1`, so one label becomes "c1" and the other
"circuit 1". -/
theorem C10_inner_breaks_circuit_pattern :
    normalizeText "circuit 1".toList Mode.strong = "c1".toList ∧
    normalizeText "circuit inner 1".toList Mode.strong = "circuit 1".toList ∧
    normalizeText "circuit inner 1".toList Mode.strong ≠
      normalizeText "circuit 1".toList Mode.strong :=
  ⟨by decide, by decide, by decide⟩

/-- Claim C10, amended: `normalizeText("inner", 'strong')` is the empty string
(the synonym rule rewrites "inner" to "in" and the stopword filter then
removes it), and in labels where "inner" does not interact with a multi-word
synonym pattern its insertion leaves the normalization unchanged — e.g.
"inner lever arm" and "lever arm" normalize identically.  It is not erased in
general (see the counterexample). -/
theorem C10_inner_erased_amended :
    normalizeText "inner".toList Mode.strong = [] ∧
    normalizeText "inner lever arm".toList Mode.strong =
      normalizeText "lever arm".toList Mode.strong :=
  ⟨by decide, by decide⟩

/-! ## Claim C6: idempotence of basic normalization

The output of basic normalization consists of lower-case alphanumerics and
single interior spaces, with no leading or trailing space; every stage of the
pipeline is the identity on such strings. -/

/-- Characters that can appear in basic-normalization output. -/
def isCanonChar (c : Char) : Bool := isLowerAlnum c || c = ' '

/-- The no-two-adjacent-whitespace invariant. -/
def NoTwoWS (a b : Char) : Prop := ¬(isWSChar a = true ∧ isWSChar b = true)

theorem canon_ws_eq_space {c : Char} (hc : isCanonChar c = true)
    (hw : isWSChar c = true) : c = ' ' := by
  simp only [isWSChar, Bool.or_eq_true, decide_eq_true_eq] at hw
  rcases hw with ((rfl | rfl) | rfl) | rfl
  · rfl
  · exact absurd hc (by decide)
  · exact absurd hc (by decide)
  · exact absurd hc (by decide)

theorem canon_not_decor {c : Char} (hc : isCanonChar c = true) :
    isDecorChar c = false := by
  rw [Bool.eq_false_iff]
  intro hd
  simp only [isDecorChar, Bool.or_eq_true, decide_eq_true_eq] at hd
  rcases hd with (((rfl | rfl) | rfl) | rfl) | rfl <;> exact absurd hc (by decide)

theorem canon_not_open {c : Char} (hc : isCanonChar c = true) :
    isOpenBracket c = false := by
  rw [Bool.eq_false_iff]
  intro hd
  simp only [isOpenBracket, Bool.or_eq_true, decide_eq_true_eq] at hd
  rcases hd with (rfl | rfl) | rfl <;> exact absurd hc (by decide)

theorem canon_keep {c : Char} (hc : isCanonChar c = true) :
    isKeepChar c = true := by
  simp only [isCanonChar, Bool.or_eq_true, decide_eq_true_eq] at hc
  rcases hc with h | rfl
  · simp [isKeepChar, h]
  · decide

theorem canon_sep_id {c : Char} (hc : isCanonChar c = true) :
    (if c = '/' || c = '-' || c = '_' then ' ' else c) = c := by
  rw [if_neg]
  intro h
  simp only [Bool.or_eq_true, decide_eq_true_eq] at h
  rcases h with (rfl | rfl) | rfl <;> exact absurd hc (by decide)

theorem canon_toLower_id {c : Char} (hc : isCanonChar c = true) :
    toLowerChar c = c := by
  unfold toLowerChar
  rw [if_neg]
  intro h
  simp only [Bool.and_eq_true, decide_eq_true_eq] at h
  obtain ⟨h1, h2⟩ := h
  simp only [isCanonChar, isLowerAlnum, isLowerAlpha, isDigitChar,
    Bool.or_eq_true, Bool.and_eq_true, decide_eq_true_eq] at hc
  rcases hc with (⟨ha, _⟩ | ⟨_, hb⟩) | rfl
  · have hlt : ('Z' : Char) < c := lt_of_lt_of_le (by decide) ha
    exact absurd h2 (not_le.mpr hlt)
  · have hlt : c < 'A' := lt_of_le_of_lt hb (by decide)
    exact absurd h1 (not_le.mpr hlt)
  · exact absurd h1 (by decide)

theorem head?_dropWhile_not (p : Char → Bool) :
    ∀ {l : Str} {a : Char}, (l.dropWhile p).head? = some a → p a = false := by
  intro l
  induction l with
  | nil => intro a h; simp [List.dropWhile] at h
  | cons c rest ih =>
    intro a h
    by_cases hc : p c = true
    · rw [List.dropWhile_cons, if_pos hc] at h
      exact ih h
    · rw [List.dropWhile_cons, if_neg hc] at h
      simp only [List.head?_cons, Option.some.injEq] at h
      rw [← h]
      simpa using hc

theorem dropWhile_id_of_head (p : Char → Bool) {l : Str}
    (h : ∀ a, l.head? = some a → p a = false) : l.dropWhile p = l := by
  cases l with
  | nil => rfl
  | cons c rest =>
    rw [List.dropWhile_cons, if_neg]
    simp [h c rfl]

theorem dropTrailWS_eq_self {l : Str}
    (h : ∀ a, l.getLast? = some a → isWSChar a = false) : dropTrailWS l = l := by
  unfold dropTrailWS
  rw [dropWhile_id_of_head isWSChar, List.reverse_reverse]
  intro a ha
  exact h a (by rw [← List.head?_reverse]; exact ha)

theorem trimStr_eq_self {l : Str}
    (h1 : ∀ a, l.head? = some a → isWSChar a = false)
    (h2 : ∀ a, l.getLast? = some a → isWSChar a = false) : trimStr l = l := by
  unfold trimStr
  rw [dropWhile_id_of_head isWSChar h1, dropTrailWS_eq_self h2]

theorem dropTrailWS_prefixOf (m : Str) : dropTrailWS m <+: m := by
  obtain ⟨u, hu⟩ := List.dropWhile_suffix (l := m.reverse) isWSChar
  exact ⟨u.reverse, by
    rw [dropTrailWS, ← List.reverse_append, hu, List.reverse_reverse]⟩

theorem isPrefix_head?_eq {a : Char} {l1 l2 : Str} (h : l1 <+: l2)
    (ha : l1.head? = some a) : l2.head? = some a := by
  obtain ⟨t, rfl⟩ := h
  cases l1 with
  | nil => simp at ha
  | cons c r => simpa using ha

theorem trimStr_head {l : Str} :
    ∀ a, (trimStr l).head? = some a → isWSChar a = false := by
  intro a ha
  unfold trimStr at ha
  have h2 := isPrefix_head?_eq (dropTrailWS_prefixOf (l.dropWhile isWSChar)) ha
  exact head?_dropWhile_not isWSChar h2

theorem trimStr_getLast {l : Str} :
    ∀ a, (trimStr l).getLast? = some a → isWSChar a = false := by
  intro a ha
  unfold trimStr dropTrailWS at ha
  rw [List.getLast?_eq_head?_reverse, List.reverse_reverse] at ha
  exact head?_dropWhile_not isWSChar ha

theorem trimStr_subset {l : Str} : ∀ c ∈ trimStr l, c ∈ l := by
  intro c hc
  unfold trimStr at hc
  have h1 := (dropTrailWS_prefixOf (l.dropWhile isWSChar)).sublist.subset hc
  exact (List.dropWhile_sublist isWSChar).subset h1

theorem trimStr_chain {l : Str} (h : List.Chain' NoTwoWS l) :
    List.Chain' NoTwoWS (trimStr l) := by
  unfold trimStr
  exact List.Chain'.prefix
    (List.Chain'.suffix h (List.dropWhile_suffix isWSChar))
    (dropTrailWS_prefixOf _)

theorem collapseWS_nil : collapseWS [] = [] := rfl

theorem collapseWS_one (c : Char) :
    collapseWS [c] = if isWSChar c then [' '] else [c] := rfl

theorem collapseWS_cons2 (c d : Char) (rest : Str) :
    collapseWS (c :: d :: rest) =
      if isWSChar c then
        if isWSChar d then collapseWS (d :: rest)
        else ' ' :: collapseWS (d :: rest)
      else c :: collapseWS (d :: rest) := rfl

theorem stripNonAlnum_one (c : Char) :
    stripNonAlnum [c] = if isKeepChar c then [c] else [' '] := rfl

theorem stripNonAlnum_cons2 (c d : Char) (rest : Str) :
    stripNonAlnum (c :: d :: rest) =
      if isKeepChar c then c :: stripNonAlnum (d :: rest)
      else if isKeepChar d then ' ' :: stripNonAlnum (d :: rest)
      else stripNonAlnum (d :: rest) := rfl

theorem collapseWS_mem :
    ∀ {l : Str} {c : Char}, c ∈ collapseWS l →
      c = ' ' ∨ (c ∈ l ∧ isWSChar c = false) := by
  intro l
  induction l using collapseWS.induct with
  | case1 => intro c hc; simp [collapseWS_nil] at hc
  | case2 c hw =>
    intro e he
    rw [collapseWS_one, if_pos hw] at he
    simp only [List.mem_singleton] at he
    exact Or.inl he
  | case3 c hw =>
    intro e he
    rw [collapseWS_one, if_neg hw] at he
    simp only [List.mem_singleton] at he
    subst he
    exact Or.inr ⟨List.mem_cons_self _ _, by simpa using hw⟩
  | case4 c d rest hwc hwd ih =>
    intro e he
    rw [collapseWS_cons2, if_pos hwc, if_pos hwd] at he
    rcases ih he with h | ⟨hmem, hws⟩
    · exact Or.inl h
    · exact Or.inr ⟨List.mem_cons_of_mem _ hmem, hws⟩
  | case5 c d rest hwc hwd ih =>
    intro e he
    rw [collapseWS_cons2, if_pos hwc, if_neg hwd] at he
    rcases List.mem_cons.mp he with rfl | he2
    · exact Or.inl rfl
    · rcases ih he2 with h | ⟨hmem, hws⟩
      · exact Or.inl h
      · exact Or.inr ⟨List.mem_cons_of_mem _ hmem, hws⟩
  | case6 c d rest hwc ih =>
    intro e he
    rw [collapseWS_cons2, if_neg hwc] at he
    rcases List.mem_cons.mp he with rfl | he2
    · exact Or.inr ⟨List.mem_cons_self _ _, by simpa using hwc⟩
    · rcases ih he2 with h | ⟨hmem, hws⟩
      · exact Or.inl h
      · exact Or.inr ⟨List.mem_cons_of_mem _ hmem, hws⟩

theorem collapseWS_head {l : Str} {a : Char} (hha : l.head? = some a)
    (hwa : isWSChar a = false) : (collapseWS l).head? = some a := by
  cases l with
  | nil => simp at hha
  | cons c rest =>
    simp only [List.head?_cons, Option.some.injEq] at hha
    subst hha
    cases rest with
    | nil =>
      rw [collapseWS_one, if_neg (by simp [hwa])]
      rfl
    | cons d rest2 =>
      rw [collapseWS_cons2, if_neg (by simp [hwa])]
      rfl

theorem collapseWS_chain : ∀ (l : Str), List.Chain' NoTwoWS (collapseWS l) := by
  intro l
  induction l using collapseWS.induct with
  | case1 => simp [collapseWS_nil]
  | case2 c hw => rw [collapseWS_one, if_pos hw]; simp
  | case3 c hw => rw [collapseWS_one, if_neg hw]; simp
  | case4 c d rest hwc hwd ih =>
    rw [collapseWS_cons2, if_pos hwc, if_pos hwd]
    exact ih
  | case5 c d rest hwc hwd ih =>
    rw [collapseWS_cons2, if_pos hwc, if_neg hwd]
    rw [List.chain'_cons']
    constructor
    · intro b hb
      have hd2 : isWSChar d = false := by simpa using hwd
      rw [collapseWS_head (l := d :: rest) rfl hd2] at hb
      simp only [Option.mem_def, Option.some.injEq] at hb
      subst hb
      intro hpair
      rw [hd2] at hpair
      exact Bool.false_ne_true hpair.2
    · exact ih
  | case6 c d rest hwc ih =>
    rw [collapseWS_cons2, if_neg hwc]
    rw [List.chain'_cons']
    constructor
    · intro b _ hpair
      have hc2 : isWSChar c = false := by simpa using hwc
      rw [hc2] at hpair
      exact Bool.false_ne_true hpair.1
    · exact ih

theorem collapseWS_id :
    ∀ {l : Str}, (∀ c ∈ l, isWSChar c = true → c = ' ') →
      List.Chain' NoTwoWS l → collapseWS l = l := by
  intro l
  induction l using collapseWS.induct with
  | case1 => intro _ _; rfl
  | case2 c hw =>
    intro hws _
    rw [collapseWS_one, if_pos hw, hws c (by simp) hw]
  | case3 c hw =>
    intro _ _
    rw [collapseWS_one, if_neg hw]
  | case4 c d rest hwc hwd ih =>
    intro hws hchain
    exact absurd (List.chain'_cons.mp hchain).1 (fun hp => hp ⟨hwc, hwd⟩)
  | case5 c d rest hwc hwd ih =>
    intro hws hchain
    rw [collapseWS_cons2, if_pos hwc, if_neg hwd,
      ih (fun e he hw => hws e (List.mem_cons_of_mem _ he) hw)
        (List.Chain'.tail hchain),
      hws c (by simp) hwc]
  | case6 c d rest hwc ih =>
    intro hws hchain
    rw [collapseWS_cons2, if_neg hwc,
      ih (fun e he hw => hws e (List.mem_cons_of_mem _ he) hw)
        (List.Chain'.tail hchain)]

theorem stripNonAlnum_chars :
    ∀ {l : Str} {c : Char}, c ∈ stripNonAlnum l → isKeepChar c = true := by
  intro l
  induction l using stripNonAlnum.induct with
  | case1 => intro c hc; simp [stripNonAlnum] at hc
  | case2 c hk =>
    intro e he
    rw [stripNonAlnum_one, if_pos hk] at he
    simp only [List.mem_singleton] at he
    subst he
    exact hk
  | case3 c hk =>
    intro e he
    rw [stripNonAlnum_one, if_neg hk] at he
    simp only [List.mem_singleton] at he
    subst he
    decide
  | case4 c d rest hk ih =>
    intro e he
    rw [stripNonAlnum_cons2, if_pos hk] at he
    rcases List.mem_cons.mp he with rfl | he2
    · exact hk
    · exact ih he2
  | case5 c d rest hk hkd ih =>
    intro e he
    rw [stripNonAlnum_cons2, if_neg hk, if_pos hkd] at he
    rcases List.mem_cons.mp he with rfl | he2
    · decide
    · exact ih he2
  | case6 c d rest hk hkd ih =>
    intro e he
    rw [stripNonAlnum_cons2, if_neg hk, if_neg hkd] at he
    exact ih he

theorem stripNonAlnum_id :
    ∀ {l : Str}, (∀ c ∈ l, isKeepChar c = true) → stripNonAlnum l = l := by
  intro l
  induction l using stripNonAlnum.induct with
  | case1 => intro _; rfl
  | case2 c hk => intro _; rw [stripNonAlnum_one, if_pos hk]
  | case3 c hk => intro h; exact absurd (h c (by simp)) hk
  | case4 c d rest hk ih =>
    intro h
    rw [stripNonAlnum_cons2, if_pos hk,
      ih (fun e he => h e (List.mem_cons_of_mem _ he))]
  | case5 c d rest hk hkd ih =>
    intro h
    exact absurd (h c (by simp)) hk
  | case6 c d rest hk hkd ih =>
    intro h
    exact absurd (h c (by simp)) hk

theorem stripUnitsBracketsGo_id :
    ∀ (fuel : ℕ) {l : Str}, (∀ c ∈ l, isOpenBracket c = false) →
      stripUnitsBracketsGo fuel l = l := by
  intro fuel
  induction fuel with
  | zero => intro l _; rfl
  | succ n ih =>
    intro l h
    cases l with
    | nil => rfl
    | cons c rest =>
      rw [stripUnitsBracketsGo, if_neg (by simp [h c (by simp)])]
      congr 1
      exact ih (fun e he => h e (List.mem_cons_of_mem _ he))

theorem stripLeadDecor_id {l : Str}
    (h : ∀ a, l.head? = some a → isDecorChar a = false) :
    stripLeadDecor l = l := by
  cases l with
  | nil => rfl
  | cons c rest =>
    rw [stripLeadDecor, if_neg (by simp [h c rfl])]

/-- The canonical-output facts about `trimStr (collapseWS (stripNonAlnum w))`,
the tail of the basic pipeline, for an arbitrary intermediate string `w`. -/
theorem basicTail_canon (w : Str) :
    (∀ c ∈ trimStr (collapseWS (stripNonAlnum w)), isCanonChar c = true) ∧
    List.Chain' NoTwoWS (trimStr (collapseWS (stripNonAlnum w))) ∧
    (∀ a, (trimStr (collapseWS (stripNonAlnum w))).head? = some a →
      isWSChar a = false) ∧
    (∀ a, (trimStr (collapseWS (stripNonAlnum w))).getLast? = some a →
      isWSChar a = false) := by
  refine ⟨?_, ?_, ?_, ?_⟩
  · intro c hc
    have hc2 := trimStr_subset c hc
    rcases collapseWS_mem hc2 with rfl | ⟨hmem, hws⟩
    · decide
    · have hk := stripNonAlnum_chars hmem
      simp only [isKeepChar, Bool.or_eq_true] at hk
      rcases hk with h | h
      · simp [isCanonChar, h]
      · rw [h] at hws; cases hws
  · exact trimStr_chain (collapseWS_chain _)
  · exact fun a ha => trimStr_head a ha
  · exact fun a ha => trimStr_getLast a ha

/-- Basic normalization is the identity on canonical strings. -/
theorem basic_id_of_canon {y : Str}
    (hchars : ∀ c ∈ y, isCanonChar c = true)
    (hchain : List.Chain' NoTwoWS y)
    (hhead : ∀ a, y.head? = some a → isWSChar a = false)
    (hlast : ∀ a, y.getLast? = some a → isWSChar a = false) :
    normalizeText y Mode.basic = y := by
  unfold normalizeText
  rw [trimStr_eq_self hhead hlast]
  by_cases hy : y.isEmpty = true
  · rw [if_pos hy]
    exact (List.isEmpty_iff.mp hy).symm
  · rw [if_neg hy]
    dsimp only
    have e1 : stripLeadDecor y = y :=
      stripLeadDecor_id (fun a ha =>
        canon_not_decor (hchars a (by
          cases y with
          | nil => simp at ha
          | cons c rest =>
            simp only [List.head?_cons, Option.some.injEq] at ha
            rw [← ha]
            exact List.mem_cons_self _ _)))
    have e2 : y.map toLowerChar = y := by
      have := List.map_congr_left (fun a ha => canon_toLower_id (hchars a ha))
      rw [this, List.map_id']
    have e3 : y.map
        (fun c => if c = '/' || c = '-' || c = '_' then ' ' else c) = y := by
      have := List.map_congr_left (fun a ha => canon_sep_id (hchars a ha))
      rw [this, List.map_id']
    have e4 : stripUnitsBrackets y = y :=
      stripUnitsBracketsGo_id _ (fun c hc => canon_not_open (hchars c hc))
    have e5 : stripNonAlnum y = y :=
      stripNonAlnum_id (fun c hc => canon_keep (hchars c hc))
    have e6 : collapseWS y = y :=
      collapseWS_id (fun c hc hw => canon_ws_eq_space (hchars c hc) hw) hchain
    rw [e1, e2, e3, e4, e5, e6, trimStr_eq_self hhead hlast]
    rfl

/-- Claim C6: basic normalization is idempotent — applying it to its own
output returns the same string. -/
theorem C6_basic_normalize_idempotent (x : Str) :
    normalizeText (normalizeText x Mode.basic) Mode.basic =
      normalizeText x Mode.basic := by
  by_cases h0 : (trimStr x).isEmpty = true
  · have hx : normalizeText x Mode.basic = [] := by
      unfold normalizeText
      rw [if_pos h0]
    rw [hx]
    decide
  · have hx : normalizeText x Mode.basic =
        trimStr (collapseWS (stripNonAlnum (stripUnitsBrackets
          (((stripLeadDecor (trimStr x)).map toLowerChar).map
            (fun c => if c = '/' || c = '-' || c = '_' then ' ' else c))))) := by
      unfold normalizeText
      rw [if_neg h0]
      dsimp only
      rw [if_pos rfl]
    obtain ⟨hchars, hchain, hhead, hlast⟩ := basicTail_canon
      (stripUnitsBrackets
        (((stripLeadDecor (trimStr x)).map toLowerChar).map
          (fun c => if c = '/' || c = '-' || c = '_' then ' ' else c)))
    rw [hx]
    exact basic_id_of_canon hchars hchain hhead hlast

end BSPA
